import Mathlib

/-!
# pxier_maintainer: embedding of `main.go`

The program pulls batches of candidate proxies from an inventory service, probes each one in
its own goroutine, reports failing candidates back (gated by a weighted semaphore that is
polled with `TryAcquire`), and periodically deletes persisted proxies with too many errors.

Embedding:
* pure parts (`main` up to the construction of the maintainer, `fetch`, the SQL delete of
  `removeDeadProxy`) are functions;
* the goroutines are a list of program counters `Pc`, and one `Action` of the scheduler runs
  one atomic segment of one goroutine (`step`); outcomes of network calls are chosen by the
  scheduler, so a statement over all action sequences covers every interleaving and every
  network behaviour;
* effects (HTTP calls, log lines, sleeps) are appended to a trace of `Event`s;
* a Go panic is the result `none` of `step` (`Except.error` in `main`);
* the libraries the program calls (`semaphore`, `fastjson`, `strconv`, `gorm`, `viper`) are not
  part of the repository; the few operations used are modelled after their documented
  behaviour, and the JSON body parser is a parameter `parseBytes`.
Go `int` is taken to be 64 bits wide.
-/

namespace Pxier

/-- A Go `error` value; `none` is `nil`. -/
abbrev GoError := Option String

/-- Two's complement wrap-around of an integer to the `int64` range. -/
def wrapInt64 (x : Int) : Int := (x + 2 ^ 63) % 2 ^ 64 - 2 ^ 63

/-! ## The weighted semaphore (`golang.org/x/sync/semaphore`) -/

/-- Modelled from the spec: the Concurrency Budget, "a single shared counting resource of fixed
capacity `C`" with "atomic acquire/release semantics". It is a `semaphore.Weighted` of
`golang.org/x/sync`, a dependency whose code is not under `src/`; the fields follow that type:
`size` is the capacity given to `NewWeighted`, `cur` the units held, `waiters` the length of the
queue of blocked `Acquire` calls (the program only calls `TryAcquire` and `Release`, so nothing
ever enqueues). With `0 ≤ cur ≤ max size 0`, which every reachable state satisfies, `size - cur`
and `cur + n` stay inside `int64`, so no wrap-around is modelled here. -/
structure Weighted where
  size : Int
  cur : Int
  waiters : Nat
deriving DecidableEq, Repr

/-- Constructor `semaphore.NewWeighted(n)`: stores `n` as is, also when it is negative. -/
def NewWeighted (n : Int) : Weighted := ⟨n, 0, 0⟩

/-- Method `TryAcquire(n)`: succeeds iff `size - cur >= n` and nobody is queued; on success
`cur += n`. Returns the success flag and the semaphore afterwards. -/
def Weighted.TryAcquire (s : Weighted) (n : Int) : Bool × Weighted :=
  if s.size - s.cur ≥ n ∧ s.waiters = 0 then (true, { s with cur := s.cur + n }) else (false, s)

/-- Method `Release(n)`: `cur -= n`, and a panic (`none`) when that goes below zero. -/
def Weighted.Release (s : Weighted) (n : Int) : Option Weighted :=
  if s.cur - n < 0 then none else some { s with cur := s.cur - n }

/-! ## JSON values as `fastjson` exposes them -/

/-- A parsed `fastjson.Value` (library `valyala/fastjson`, a dependency outside `src/`). Object
keys are the unescaped keys in document order. A number token is kept as `some n` when its
text is an integer literal (optional minus sign, decimal digits) of value `n`, and as `none`
when it has a fraction or an exponent: that is all `GetInt` can tell about it. -/
inductive JValue where
  | null
  | true_
  | false_
  | number (lit : Option Int)
  | string (s : String)
  | array (a : List JValue)
  | object (kvs : List (String × JValue))

/-- Decimal value of a digit string. -/
def digitsValue (ds : List Char) : Nat := ds.foldl (fun acc c => acc * 10 + (c.toNat - 48)) 0

/-- Unsigned part of `strconv.Atoi`: a nonempty string of decimal digits. -/
def atoiDigits (ds : List Char) : Option Nat :=
  if ds ≠ [] ∧ ds.all Char.isDigit then some (digitsValue ds) else none

/-- Function `strconv.Atoi`: optional sign, decimal digits, result inside the `int` range. -/
def atoi (s : String) : Option Int :=
  let r : Option Int :=
    match s.toList with
    | '-' :: ds => (atoiDigits ds).map (fun n => -(n : Int))
    | '+' :: ds => (atoiDigits ds).map (fun n => (n : Int))
    | ds => (atoiDigits ds).map (fun n => (n : Int))
  match r with
  | some n => if -(2 ^ 63) ≤ n ∧ n < 2 ^ 63 then some n else none
  | none => none

/-- Method `Value.Get(key)` with one key: the first entry with that key of an object, the
element at a decimal index of an array, `nil` otherwise. -/
def JValue.Get (v : JValue) (key : String) : Option JValue :=
  match v with
  | .object kvs => (kvs.find? (fun kv => kv.1 == key)).map (fun kv => kv.2)
  | .array a =>
    match atoi key with
    | some n => if n < 0 ∨ n ≥ a.length then none else a[n.toNat]?
    | none => none
  | _ => none

/-- Method `Value.GetArray(key)`: the elements when the value at `key` is an array, else the
`nil` slice. -/
def JValue.GetArray (v : JValue) (key : String) : List JValue :=
  match v.Get key with
  | some (.array a) => a
  | _ => []

/-- Method `Value.GetStringBytes(key)` converted with `string(...)`: the string at `key`, else
the empty string. -/
def JValue.GetStringBytes (v : JValue) (key : String) : String :=
  match v.Get key with
  | some (.string s) => s
  | _ => ""

/-- Method `Value.GetInt(key)`: for a number at `key`, `fastfloat.ParseInt64BestEffort` of its
text, which is the value of an integer literal inside the `int64` range and `0` for any other
number; `0` also when there is no number at `key`. The conversion `int(n)` keeps the value, `int`
being 64 bits wide. -/
def JValue.GetInt (v : JValue) (key : String) : Int :=
  match v.Get key with
  | some (.number (some n)) => if -(2 ^ 63) ≤ n ∧ n < 2 ^ 63 then n else 0
  | _ => 0

/-! ## Data model of `main.go` -/

/-- Row of table `proxy`. -/
structure proxy where
  Id : Int
  Address : String
  Provider : String
  CreatedAt : Int
  UpdatedAt : Int
  ErrTimes : Int
  DialType : String
deriving DecidableEq, Repr

/-- The shared `fasthttp.Client` of the maintainer, by the one field `main` sets. -/
structure Client where
  MaxConnsPerHost : Int
deriving DecidableEq, Repr

/-- The `maintainer` struct. `writeDB` stands for the rows of table `proxy` behind the handle. -/
structure maintainer where
  maxConcurrency : Weighted
  eachFetchNum : Int
  client : Client
  pxierBaseUrl : String
  checkUrl : String
  writeDB : List proxy
  maxErr : Int
deriving DecidableEq, Repr

/-- What viper returns for each option; `GetInt64`, `GetInt` and `GetString` give `0` and `""`
for an option that is absent. -/
structure Config where
  max_concurrency : Int
  each_fetch_num : Int
  pxier_base_url : String
  check_connection_url : String
  max_err : Int
  write_db : String
deriving DecidableEq, Repr

/-- An inventory response: status code and raw body. -/
structure Response where
  statusCode : Int
  body : String
deriving DecidableEq, Repr

/-- The arguments of one `go m.validate(address, dialType, provider, id)`. -/
structure Candidate where
  addr : String
  dt : String
  pvd : String
  id : Int
deriving DecidableEq, Repr

/-- The dial function chosen by the `switch` of `validate`. -/
inductive Dial where
  | FasthttpHTTPDialer (addr : String)
  | FasthttpSocksDialer (addr : String)
deriving DecidableEq, Repr

/-- Observable effects, tagged by call site. -/
inductive Event where
  | requireGet (uri : String)
  | probeGet (dial : Dial) (url : String)
  | reportGet (uri : String)
  | log (msg : String)
  | sleep (ms : Nat)
deriving DecidableEq, Repr

/-- The `return` of `validate` through which a goroutine ended. -/
inductive ExitPoint where
  | unknownDial
  | reported
  | validated
deriving DecidableEq, Repr

/-- Program counter of a validation goroutine. -/
inductive Pc where
  | validate (c : Candidate)
  | acquire (pvd : String) (id : Int)
  | send (pvd : String) (id : Int)
  | release
  | exit (e : ExitPoint)
deriving DecidableEq, Repr

/-! ## `main` up to the construction of the maintainer -/

/-- Function `newWriteDB`: panics on an empty `write_db` and when `gorm.Open` or `AutoMigrate`
fails; `store` is the outcome of these two calls, the rows of table `proxy` on success. -/
def newWriteDB (cfg : Config) (store : Except String (List proxy)) : Except String (List proxy) :=
  if cfg.write_db.length = 0 then .error "mysql url is empty"
  else
    match store with
    | .error _ => .error "failed to create db"
    | .ok rows => .ok rows

/-- Lines 77-108 of `main`: defaults, required options, the maintainer. -/
def main (cfg : Config) (store : Except String (List proxy)) : Except String maintainer :=
  let maxConcurrency := if cfg.max_concurrency = 0 then 10 else cfg.max_concurrency
  let eachFetchNum := if cfg.each_fetch_num = 0 then 10 else cfg.each_fetch_num
  if cfg.pxier_base_url.length = 0 then .error "missing pxier_base_url"
  else if cfg.check_connection_url.length = 0 then .error "missing check_connection_url"
  else
    let maxErr := if cfg.max_err = 0 then 5 else cfg.max_err
    match newWriteDB cfg store with
    | .error e => .error e
    | .ok rows =>
      .ok { maxConcurrency := NewWeighted maxConcurrency
            eachFetchNum := eachFetchNum
            client := { MaxConnsPerHost := wrapInt64 (maxConcurrency * 2) }
            pxierBaseUrl := cfg.pxier_base_url
            checkUrl := cfg.check_connection_url
            writeDB := rows
            maxErr := maxErr }

/-! ## `fetch`, `validate`, `report`, `removeDeadProxy` -/

/-- Method `fetch`: `reply` is what `DoTimeout` gives (a transport error or a response).
Returns the events of the call and the goroutines started, in order. -/
def fetch (parseBytes : String → Except String JValue) (m : maintainer)
    (reply : Except String Response) : List Event × List Candidate :=
  let uri := m.pxierBaseUrl ++ "/require?num=" ++ toString m.eachFetchNum ++ "&provider=mix"
  match reply with
  | .error _ => ([.requireGet uri, .log "failed to fetch proxy"], [])
  | .ok res =>
    if res.statusCode ≠ 200 then ([.requireGet uri, .log "status code is not 200"], [])
    else
      match parseBytes res.body with
      | .error _ => ([.requireGet uri, .log "failed to parse json body"], [])
      | .ok jd =>
        ([.requireGet uri],
          (jd.GetArray "data").foldl
            (fun started each =>
              let address := each.GetStringBytes "address"
              let dialType := each.GetStringBytes "dial_type"
              let provider := each.GetStringBytes "provider"
              let id := each.GetInt "id"
              started ++ [⟨address, dialType, provider, id⟩])
            [])

/-- Method `validate` up to its `return` or its call of `report`: `err` is what the probe
`GetTimeout` gives if it is reached. Returns the events and where the goroutine is next. -/
def validate (m : maintainer) (addr dt pvd : String) (id : Int) (err : GoError) :
    List Event × Pc :=
  let dial : Option Dial :=
    if dt = "http" then some (.FasthttpHTTPDialer addr)
    else if dt = "socks5" then some (.FasthttpSocksDialer addr)
    else none
  match dial with
  | none => ([.log "unknown dial type, return"], .exit .unknownDial)
  | some d =>
    match err with
    | some _ => ([.probeGet d m.checkUrl, .log "proxy error"], .acquire pvd id)
    | none => ([.probeGet d m.checkUrl, .log "Validated"], .exit .validated)

/-- One turn of the polling loop of `report` (lines 213-219). -/
def reportTryAcquire (m : maintainer) (pvd : String) (id : Int) : maintainer × List Event × Pc :=
  match m.maxConcurrency.TryAcquire 1 with
  | (true, w) => ({ m with maxConcurrency := w }, [], .send pvd id)
  | (false, w) => ({ m with maxConcurrency := w }, [.sleep 50], .acquire pvd id)

/-- The request of `report` (lines 220-233); `err` is what `DoTimeout` gives. -/
def reportDoTimeout (m : maintainer) (pvd : String) (id : Int) (err : GoError) :
    List Event × Pc :=
  let uri := m.pxierBaseUrl ++ "/report?id=" ++ toString id ++ "&provider=" ++ pvd
  match err with
  | some _ => ([.reportGet uri, .log "failed to send report http request"], .release)
  | none => ([.reportGet uri], .release)

/-- The deferred function of `report` (lines 222-226): `Release(1)`, which may panic. -/
def reportDeferred (m : maintainer) : Option (maintainer × List Event × Pc) :=
  match m.maxConcurrency.Release 1 with
  | none => none
  | some w => some ({ m with maxConcurrency := w }, [], .exit .reported)

/-- SQL `DELETE FROM t WHERE cond`. -/
def deleteWhere (cond : proxy → Bool) (rows : List proxy) : List proxy :=
  rows.filter (fun p => !cond p)

/-- Method `removeDeadProxy`: `Where("err_times >= ?", m.maxErr).Delete(&proxy{})`. -/
def removeDeadProxy (m : maintainer) : maintainer :=
  { m with writeDB := deleteWhere (fun p => decide (p.ErrTimes ≥ m.maxErr)) m.writeDB }

/-! ## The running system -/

/-- The maintainer (with the semaphore and the table), the validation goroutines in order of
creation, and the trace of effects so far. -/
structure System where
  m : maintainer
  goroutines : List Pc
  trace : List Event
deriving DecidableEq, Repr

/-- One scheduling decision: the main loop runs `fetch` and gets `reply`; the reaper loop runs
`removeDeadProxy`; or goroutine `i` runs its next segment, `err` being the outcome of the
network call of that segment if it has one. -/
inductive Action where
  | fetch (reply : Except String Response)
  | reap
  | run (i : Nat) (err : GoError)

/-- Next segment of a goroutine at `pc`. -/
def stepGoroutine (m : maintainer) (pc : Pc) (err : GoError) :
    Option (maintainer × List Event × Pc) :=
  match pc with
  | .validate c =>
    let r := validate m c.addr c.dt c.pvd c.id err
    some (m, r.1, r.2)
  | .acquire pvd id => some (reportTryAcquire m pvd id)
  | .send pvd id =>
    let r := reportDoTimeout m pvd id err
    some (m, r.1, r.2)
  | .release => reportDeferred m
  | .exit e => some (m, [], .exit e)

/-- One step of the system; `none` is a panic of the process. -/
def step (parseBytes : String → Except String JValue) (s : System) (a : Action) :
    Option System :=
  match a with
  | .fetch reply =>
    let r := fetch parseBytes s.m reply
    some { s with goroutines := s.goroutines ++ r.2.map Pc.validate, trace := s.trace ++ r.1 }
  | .reap => some { s with m := removeDeadProxy s.m }
  | .run i err =>
    match s.goroutines[i]? with
    | none => some s
    | some pc =>
      match stepGoroutine s.m pc err with
      | none => none
      | some (m1, evs, pc1) =>
        some { m := m1, goroutines := s.goroutines.set i pc1, trace := s.trace ++ evs }

/-- Run a finite schedule. -/
def runActions (parseBytes : String → Except String JValue) (s : System) :
    List Action → Option System
  | [] => some s
  | a :: rest =>
    match step parseBytes s a with
    | none => none
    | some s1 => runActions parseBytes s1 rest

/-- The system right after `main` has built the maintainer: no goroutine, empty trace. -/
def boot (m : maintainer) : System := ⟨m, [], []⟩

/-- A goroutine holds a budget unit: acquired and not yet released. -/
def Pc.holding : Pc → Bool
  | .send _ _ => true
  | .release => true
  | _ => false

/-- A goroutine has entered `report` (it may have left it again). -/
def Pc.enteredReport : Pc → Bool
  | .acquire _ _ => true
  | .send _ _ => true
  | .release => true
  | .exit .reported => true
  | _ => false

/-- A goroutine has issued its report request. -/
def Pc.sent : Pc → Bool
  | .release => true
  | .exit .reported => true
  | _ => false

/-- A goroutine has returned from `report`. -/
def Pc.completed : Pc → Bool
  | .exit .reported => true
  | _ => false

/-- An event is a report request. -/
def Event.isReport : Event → Bool
  | .reportGet _ => true
  | _ => false

/-- An event is a network call of any kind. -/
def Event.isNetwork : Event → Bool
  | .requireGet _ => true
  | .probeGet _ _ => true
  | .reportGet _ => true
  | _ => false

/-- Number of report operations in flight. -/
def inFlight (s : System) : Nat := s.goroutines.countP Pc.holding

/-- Rendering of a candidate as an element of the `data` array of the inventory response. -/
def Candidate.toJSON (c : Candidate) : JValue :=
  .object [("id", .number (some c.id)), ("address", .string c.addr), ("dial_type", .string c.dt),
    ("provider", .string c.pvd)]

/-- The candidate `fetch` reads out of one element of `data`. -/
def candidateOf (each : JValue) : Candidate :=
  ⟨each.GetStringBytes "address", each.GetStringBytes "dial_type",
    each.GetStringBytes "provider", each.GetInt "id"⟩

/-- URI of the `require` endpoint as `fetch` formats it. -/
def requireUri (m : maintainer) : String :=
  m.pxierBaseUrl ++ "/require?num=" ++ toString m.eachFetchNum ++ "&provider=mix"

/-- URI of the `report` endpoint as `report` formats it. -/
def reportUri (m : maintainer) (pvd : String) (id : Int) : String :=
  m.pxierBaseUrl ++ "/report?id=" ++ toString id ++ "&provider=" ++ pvd

/-- The infinite execution from `s0` driven by the scheduler `α`; a step that panics leaves
the state as it is. -/
def execFrom (parseBytes : String → Except String JValue) (s0 : System) (α : Nat → Action) :
    Nat → System
  | 0 => s0
  | n + 1 =>
    (step parseBytes (execFrom parseBytes s0 α n) (α n)).getD (execFrom parseBytes s0 α n)

/-- The action is a segment of goroutine `i`. -/
def Action.runs (a : Action) (i : Nat) : Bool :=
  match a with
  | .run j _ => j == i
  | _ => false

/-- The slot holds a goroutine in the polling loop. -/
def isAcquire : Option Pc → Bool
  | some (.acquire _ _) => true
  | _ => false

/-- The invariant of the running system: nobody is queued on the semaphore, the units held are
exactly the goroutines between a successful `TryAcquire` and their `Release`, they never
exceed the capacity, and every report request in the trace belongs to a goroutine that has
sent one. -/
def Inv (s : System) : Prop :=
  s.m.maxConcurrency.waiters = 0 ∧
  s.m.maxConcurrency.cur = (s.goroutines.countP Pc.holding : Int) ∧
  s.m.maxConcurrency.cur ≤ max s.m.maxConcurrency.size 0 ∧
  s.trace.countP Event.isReport = s.goroutines.countP Pc.sent

/-! ## Example data -/

/-- A maintainer as `main` builds it from the default settings. -/
def exMaintainer : maintainer :=
  ⟨NewWeighted 10, 10, ⟨20⟩, "http://inv", "http://check", [], 5⟩

/-- Three elements of a `data` array: a well-formed candidate, one of an unknown dial type, and
an object without any field. -/
def exElems : List JValue :=
  [Candidate.toJSON ⟨"1.1.1.1:80", "http", "p", 7⟩,
   Candidate.toJSON ⟨"2.2.2.2:1080", "ftp", "q", 8⟩,
   .object []]

/-- A parser that reads every body as the object with `data` equal to `exElems`. -/
def exParse : String → Except String JValue :=
  fun _ => .ok (.object [("data", .array exElems)])

/-- Scenario 1: two `http` candidates and one `socks5` candidate. -/
def scenario1Elems : List JValue :=
  [Candidate.toJSON ⟨"10.0.0.1:8080", "http", "alpha", 1⟩,
   Candidate.toJSON ⟨"10.0.0.2:8080", "http", "beta", 2⟩,
   Candidate.toJSON ⟨"10.0.0.3:1080", "socks5", "gamma", 3⟩]

/-- The inventory body of scenario 1, parsed. -/
def scenario1Parse : String → Except String JValue :=
  fun _ => .ok (.object [("data", .array scenario1Elems)])

/-- A complete run of scenario 1: the fetch, the two `http` probes succeed, the `socks5` probe
times out, and the third goroutine goes through `report`. -/
def scenario1Schedule : List Action :=
  [.fetch (.ok ⟨200, "body"⟩), .run 0 none, .run 2 (some "timeout"), .run 1 none,
   .run 2 none, .run 2 none, .run 2 none]

/-- Scenario 1 after five actions: the third goroutine holds a unit and is about to send. -/
def scenario1Sending : System :=
  (runActions scenario1Parse (boot exMaintainer) (scenario1Schedule.take 5)).getD
    (boot exMaintainer)

/-- A system with one candidate of an unknown dial type waiting to be validated. -/
def exUnknownDial : System :=
  ⟨exMaintainer, [.validate ⟨"2.2.2.2:1080", "ftp", "q", 8⟩], []⟩

/-- Scenario 4: four persisted records with error counts 0, 4, 5 and 9. -/
def scenario4Rows : List proxy :=
  [⟨1, "10.0.0.1:80", "alpha", 100, 100, 0, "http"⟩,
   ⟨2, "10.0.0.2:80", "alpha", 100, 200, 4, "http"⟩,
   ⟨3, "10.0.0.3:80", "beta", 100, 300, 5, "socks5"⟩,
   ⟨4, "10.0.0.4:80", "beta", 100, 400, 9, "socks5"⟩]

/-- Settings with `max_concurrency` at `2 ^ 62`. -/
def hugeConfig : Config :=
  ⟨2 ^ 62, 0, "http://inv", "http://check", 0, "dsn"⟩

/-- Settings with everything optional absent. -/
def defaultConfig : Config :=
  ⟨0, 0, "http://inv", "http://check", 0, "dsn"⟩

/-- Settings with a negative `max_concurrency`. -/
def negConfig : Config :=
  ⟨-3, 0, "http://inv", "http://check", 0, "dsn"⟩

/-- The maintainer `main` builds from `negConfig`. -/
def negMaintainer : maintainer :=
  ⟨NewWeighted (-3), 10, ⟨-6⟩, "http://inv", "http://check", [], 5⟩

/-- Scenario 3: twenty `http` candidates. -/
def scenario3Elems : List JValue :=
  (List.range 20).map (fun i => Candidate.toJSON ⟨"10.0.1.1:80", "http", "alpha", i⟩)

/-- The inventory body of scenario 3, parsed. -/
def scenario3Parse : String → Except String JValue :=
  fun _ => .ok (.object [("data", .array scenario3Elems)])

/-- The maintainer of scenario 3: `max_concurrency = 5`. -/
def scenario3Maintainer : maintainer :=
  ⟨NewWeighted 5, 20, ⟨10⟩, "http://inv", "http://check", [], 5⟩

/-- One round in which each of the twenty goroutines runs its next segment. -/
def scenario3Round : List Action := (List.range 20).map (fun i => Action.run i none)

/-- Scenario 3 up to the first round of polls: the fetch, twenty failing probes, and one poll
by each goroutine. -/
def scenario3Burst : List Action :=
  .fetch (.ok ⟨200, "body"⟩) ::
    ((List.range 20).map (fun i => Action.run i (some "timeout")) ++ scenario3Round)

/-- Scenario 3 to the end: eight more rounds after the burst. -/
def scenario3Schedule : List Action :=
  scenario3Burst ++ (List.replicate 8 scenario3Round).flatten

/-- Two `socks5` candidates competing for a budget of one unit. -/
def contendElems : List JValue :=
  [Candidate.toJSON ⟨"10.0.2.1:1080", "socks5", "alpha", 1⟩,
   Candidate.toJSON ⟨"10.0.2.2:1080", "socks5", "beta", 2⟩]

/-- The inventory body with the two competing candidates, parsed. -/
def contendParse : String → Except String JValue :=
  fun _ => .ok (.object [("data", .array contendElems)])

/-- The maintainer for `max_concurrency = 1`. -/
def contendMaintainer : maintainer :=
  ⟨NewWeighted 1, 2, ⟨2⟩, "http://inv", "http://check", [], 5⟩

/-- Both probes fail; the first goroutine gets the unit, the second polls in vain twice, and
gets it once the first has released. -/
def contendSchedule : List Action :=
  [.fetch (.ok ⟨200, "body"⟩), .run 0 (some "timeout"), .run 1 (some "refused"),
   .run 0 none, .run 1 none, .run 0 none, .run 1 none, .run 0 none,
   .run 1 none, .run 1 none, .run 1 none]

/-- The scheduler that plays `contendSchedule` and then only lets the reaper run. -/
def contendActions (n : Nat) : Action := contendSchedule.getD n .reap

/-- The infinite execution of the two competing reports. -/
def contendExec : Nat → System :=
  execFrom contendParse (boot contendMaintainer) contendActions

/-! ## Lemmas -/

theorem foldl_snoc_eq_map {α β : Type} (f : α → β) (l : List α) (init : List β) :
    l.foldl (fun acc a => acc ++ [f a]) init = init ++ l.map f := by
  induction l generalizing init with
  | nil => simp
  | cons a l ih => simp [ih]

theorem candidateOf_toJSON (c : Candidate) (hlo : -(2 ^ 63) ≤ c.id) (hhi : c.id < 2 ^ 63) :
    candidateOf c.toJSON = c := by
  obtain ⟨addr, dt, pvd, id⟩ := c
  simp only at hlo hhi
  have hid : JValue.GetInt (Candidate.toJSON ⟨addr, dt, pvd, id⟩) "id" = id := by
    simp only [Candidate.toJSON, JValue.GetInt, JValue.Get, List.find?]
    exact if_pos ⟨hlo, hhi⟩
  simp [candidateOf, hid]
  simp [Candidate.toJSON, JValue.GetStringBytes, JValue.Get, List.find?]

theorem fetch_ok_spawned (parseBytes : String → Except String JValue) (m : maintainer)
    (res : Response) (jd : JValue) (hs : res.statusCode = 200)
    (hp : parseBytes res.body = .ok jd) :
    fetch parseBytes m (.ok res) = ([.requireGet (requireUri m)],
      (jd.GetArray "data").map candidateOf) := by
  have h := foldl_snoc_eq_map candidateOf (jd.GetArray "data") []
  simp only [candidateOf, List.nil_append] at h
  simp [fetch, hs, hp, requireUri, candidateOf, h]

theorem getElem?_map_candidateOf (elems : List JValue) (i : Nat) (h : i < elems.length) :
    (elems.map candidateOf)[i]? = some (candidateOf elems[i]) := by
  simp [List.getElem?_map, List.getElem?_eq_getElem h]

/-! ## C1: a successful fetch starts one validation per element of `data` -/

/-- C1: when the inventory answers with status 200 and a body that parses to a JSON value
whose `data` entry is an array `elems`, `fetch` issues the one `require` request and starts
exactly `elems.length` validations, the i-th with the address, dial type, provider and id read
from the i-th element (so, for elements that render candidates `cs` with ids in the `int`
range, exactly `cs` in order);
the system gains exactly these goroutines, at the entry of `validate`, whatever their dial
types are and whatever happens to them later. -/
theorem fetch_dispatches_one_validation_per_element
    (parseBytes : String → Except String JValue) (m : maintainer) (res : Response)
    (jd : JValue) (elems : List JValue)
    (hstatus : res.statusCode = 200)
    (hparse : parseBytes res.body = .ok jd)
    (hdata : jd.Get "data" = some (.array elems)) :
    (fetch parseBytes m (.ok res)).2.length = elems.length ∧
    (∀ (i : Nat) (h : i < elems.length),
      (fetch parseBytes m (.ok res)).2[i]? =
        some ⟨elems[i].GetStringBytes "address", elems[i].GetStringBytes "dial_type",
          elems[i].GetStringBytes "provider", elems[i].GetInt "id"⟩) ∧
    (∀ cs : List Candidate, (∀ c ∈ cs, -(2 ^ 63) ≤ c.id ∧ c.id < 2 ^ 63) →
      elems = cs.map Candidate.toJSON → (fetch parseBytes m (.ok res)).2 = cs) ∧
    (fetch parseBytes m (.ok res)).1 = [.requireGet (requireUri m)] ∧
    (∀ s : System, s.m = m → step parseBytes s (.fetch (.ok res)) =
      some { s with
        goroutines := s.goroutines ++ elems.map (fun e => Pc.validate (candidateOf e))
        trace := s.trace ++ [.requireGet (requireUri m)] }) := by
  have harr : jd.GetArray "data" = elems := by simp [JValue.GetArray, hdata]
  have hf := fetch_ok_spawned parseBytes m res jd hstatus hparse
  rw [harr] at hf
  refine ⟨by simp [hf], ?_, ?_, by simp [hf], ?_⟩
  · intro i h
    rw [hf]
    exact getElem?_map_candidateOf elems i h
  · intro cs hrange hcs
    rw [hf, hcs, List.map_map]
    calc cs.map (candidateOf ∘ Candidate.toJSON) = cs.map id :=
          List.map_congr_left (fun c hc => candidateOf_toJSON c (hrange c hc).1 (hrange c hc).2)
      _ = cs := List.map_id cs
  · intro s hs
    subst hs
    simp [step, hf, List.map_map, Function.comp_def]

/-- C1 at a concrete response: a body with three elements, one of them of an unknown dial type
and one without any field, starts as many validations as it has elements. -/
theorem fetch_dispatches_one_validation_per_element_witness :
    (fetch exParse exMaintainer (.ok ⟨200, "body"⟩)).2.length = exElems.length :=
  (fetch_dispatches_one_validation_per_element exParse exMaintainer ⟨200, "body"⟩
    (.object [("data", .array exElems)]) exElems rfl rfl
    (by simp [JValue.Get, List.find?])).1

/-! ## C5: a failed fetch has no effect beyond its one request -/

/-- C5: when the `require` request ends in a transport error, in a status other than 200, or in
a body that does not parse, `fetch` starts no validation, issues no report request, and its
only network call is the one `require` request; the system keeps its goroutines and its
maintainer (semaphore included). -/
theorem fetch_failure_starts_nothing
    (parseBytes : String → Except String JValue) (m : maintainer)
    (reply : Except String Response)
    (hfail : (∃ e, reply = .error e) ∨
      (∃ res, reply = .ok res ∧
        (res.statusCode ≠ 200 ∨ ∃ e, parseBytes res.body = .error e))) :
    (fetch parseBytes m reply).2 = [] ∧
    (fetch parseBytes m reply).1.filter Event.isNetwork = [.requireGet (requireUri m)] ∧
    (fetch parseBytes m reply).1.countP Event.isReport = 0 ∧
    (∀ s : System, s.m = m → ∃ s1, step parseBytes s (.fetch reply) = some s1 ∧
      s1.goroutines = s.goroutines ∧ s1.m = s.m ∧
      s1.trace.filter Event.isNetwork =
        s.trace.filter Event.isNetwork ++ [.requireGet (requireUri m)]) := by
  have key : ∃ msg, fetch parseBytes m reply =
      ([.requireGet (requireUri m), .log msg], []) := by
    rcases hfail with ⟨e, rfl⟩ | ⟨res, rfl, hs | ⟨e, he⟩⟩
    · exact ⟨_, rfl⟩
    · exact ⟨"status code is not 200", by simp [fetch, hs, requireUri]⟩
    · by_cases hs : res.statusCode = 200
      · exact ⟨"failed to parse json body", by simp [fetch, hs, he, requireUri]⟩
      · exact ⟨"status code is not 200", by simp [fetch, hs, requireUri]⟩
  obtain ⟨msg, hf⟩ := key
  refine ⟨by simp [hf], by simp [hf, Event.isNetwork], by simp [hf, Event.isReport], ?_⟩
  intro s hs
  subst hs
  exact ⟨_, rfl, by simp [hf], rfl, by simp [hf, Event.isNetwork]⟩

/-- C5 at status 500. -/
theorem fetch_failure_starts_nothing_witness :
    (fetch exParse exMaintainer (.ok ⟨500, "oops"⟩)).2 = [] :=
  (fetch_failure_starts_nothing exParse exMaintainer (.ok ⟨500, "oops"⟩) (Or.inr ⟨_, rfl, Or.inl (by decide)⟩)).1

/-! ## The invariant -/

theorem countP_set_int {α : Type} (p : α → Bool) (l : List α) (i : Nat) (a b : α)
    (h : l[i]? = some a) :
    ((l.set i b).countP p : Int) =
      (l.countP p : Int) - (if p a then 1 else 0) + (if p b then 1 else 0) := by
  induction l generalizing i with
  | nil => simp at h
  | cons x l ih =>
    cases i with
    | zero =>
      simp only [List.getElem?_cons_zero, Option.some.injEq] at h
      subst h
      simp only [List.set_cons_zero, List.countP_cons]
      split <;> split <;> simp
    | succ i =>
      simp only [List.getElem?_cons_succ] at h
      simp only [List.set_cons_succ, List.countP_cons, Nat.cast_add, ih i h]
      omega

theorem countP_map_validate (p : Pc → Bool) (hp : ∀ c, p (.validate c) = false)
    (cs : List Candidate) : (cs.map Pc.validate).countP p = 0 := by
  rw [List.countP_eq_zero]
  intro a ha
  obtain ⟨c, _, rfl⟩ := List.mem_map.mp ha
  simp [hp c]

theorem inv_boot (m : maintainer) (C : Int) (hm : m.maxConcurrency = NewWeighted C) :
    Inv (boot m) := by
  simp [Inv, boot, hm, NewWeighted]

theorem step_fetch_eq (parseBytes : String → Except String JValue) (s : System)
    (reply : Except String Response) :
    step parseBytes s (.fetch reply) = some { s with
      goroutines := s.goroutines ++ (fetch parseBytes s.m reply).2.map Pc.validate
      trace := s.trace ++ (fetch parseBytes s.m reply).1 } := rfl

theorem fetch_events_no_report (parseBytes : String → Except String JValue) (m : maintainer)
    (reply : Except String Response) :
    (fetch parseBytes m reply).1.countP Event.isReport = 0 := by
  unfold fetch
  split
  · simp [Event.isReport]
  · split
    · simp [Event.isReport]
    · split <;> simp [Event.isReport]

/-- The three ways through `validate`. -/
theorem validate_cases (m : maintainer) (addr dt pvd : String) (id : Int) (err : GoError) :
    (dt ≠ "http" ∧ dt ≠ "socks5" ∧
      validate m addr dt pvd id err =
        ([.log "unknown dial type, return"], .exit .unknownDial)) ∨
    ((dt = "http" ∨ dt = "socks5") ∧ ∃ d,
      ((dt = "http" → d = .FasthttpHTTPDialer addr) ∧
       (dt = "socks5" → d = .FasthttpSocksDialer addr)) ∧
      ((∃ e, err = some e ∧ validate m addr dt pvd id err =
          ([.probeGet d m.checkUrl, .log "proxy error"], .acquire pvd id)) ∨
       (err = none ∧ validate m addr dt pvd id err =
          ([.probeGet d m.checkUrl, .log "Validated"], .exit .validated)))) := by
  by_cases h1 : dt = "http"
  · subst h1
    refine Or.inr ⟨Or.inl rfl, .FasthttpHTTPDialer addr, ⟨fun _ => rfl, fun h => absurd h (by decide)⟩, ?_⟩
    cases err with
    | none => exact Or.inr ⟨rfl, by simp [validate]⟩
    | some e => exact Or.inl ⟨e, rfl, by simp [validate]⟩
  · by_cases h2 : dt = "socks5"
    · subst h2
      refine Or.inr ⟨Or.inr rfl, .FasthttpSocksDialer addr, ⟨fun h => absurd h (by decide), fun _ => rfl⟩, ?_⟩
      cases err with
      | none => exact Or.inr ⟨rfl, by simp [validate]⟩
      | some e => exact Or.inl ⟨e, rfl, by simp [validate]⟩
    · exact Or.inl ⟨h1, h2, by simp [validate, h1, h2]⟩

theorem reportDoTimeout_cases (m : maintainer) (pvd : String) (id : Int) (err : GoError) :
    (reportDoTimeout m pvd id err).2 = .release ∧
    (reportDoTimeout m pvd id err).1.filter Event.isReport =
      [.reportGet (reportUri m pvd id)] ∧
    (reportDoTimeout m pvd id err).1.filter Event.isNetwork =
      [.reportGet (reportUri m pvd id)] := by
  cases err <;> simp [reportDoTimeout, Event.isReport, Event.isNetwork, reportUri]

/-- What one segment of goroutine `i` does, case by case. -/
theorem step_run_cases (parseBytes : String → Except String JValue) (s s1 : System) (i : Nat)
    (err : GoError) (pc : Pc) (hi : s.goroutines[i]? = some pc)
    (hstep : step parseBytes s (.run i err) = some s1) :
    ∃ pc1 evs, s1.goroutines = s.goroutines.set i pc1 ∧ s1.trace = s.trace ++ evs ∧
      ((∃ c, pc = .validate c ∧ s1.m = s.m ∧ evs.countP Event.isReport = 0 ∧
          (pc1 = .acquire c.pvd c.id ∨ pc1 = .exit .unknownDial ∨ pc1 = .exit .validated)) ∨
       (∃ pvd id, pc = .acquire pvd id ∧ pc1 = .send pvd id ∧ evs = [] ∧
          1 ≤ s.m.maxConcurrency.size - s.m.maxConcurrency.cur ∧
          s.m.maxConcurrency.waiters = 0 ∧
          s1.m = { s.m with maxConcurrency :=
            { s.m.maxConcurrency with cur := s.m.maxConcurrency.cur + 1 } }) ∨
       (∃ pvd id, pc = .acquire pvd id ∧ pc1 = .acquire pvd id ∧ evs = [.sleep 50] ∧
          ¬ (1 ≤ s.m.maxConcurrency.size - s.m.maxConcurrency.cur ∧
            s.m.maxConcurrency.waiters = 0) ∧ s1.m = s.m) ∨
       (∃ pvd id, pc = .send pvd id ∧ pc1 = .release ∧ s1.m = s.m ∧
          evs.filter Event.isReport = [.reportGet (reportUri s.m pvd id)]) ∨
       (pc = .release ∧ pc1 = .exit .reported ∧ evs = [] ∧
          0 ≤ s.m.maxConcurrency.cur - 1 ∧
          s1.m = { s.m with maxConcurrency :=
            { s.m.maxConcurrency with cur := s.m.maxConcurrency.cur - 1 } }) ∨
       (∃ e, pc = .exit e ∧ pc1 = .exit e ∧ evs = [] ∧ s1.m = s.m)) := by
  simp only [step, hi] at hstep
  cases pc with
  | validate c =>
    simp only [stepGoroutine, Option.some.injEq] at hstep
    subst hstep
    refine ⟨_, _, rfl, rfl, Or.inl ⟨c, rfl, rfl, ?_, ?_⟩⟩
    · rcases validate_cases s.m c.addr c.dt c.pvd c.id err with
        ⟨_, _, h⟩ | ⟨_, d, _, ⟨e, _, h⟩ | ⟨_, h⟩⟩ <;> simp [h, Event.isReport]
    · rcases validate_cases s.m c.addr c.dt c.pvd c.id err with
        ⟨_, _, h⟩ | ⟨_, d, _, ⟨e, _, h⟩ | ⟨_, h⟩⟩ <;> simp [h]
  | acquire pvd id =>
    simp only [stepGoroutine, reportTryAcquire, Weighted.TryAcquire] at hstep
    by_cases hc : s.m.maxConcurrency.size - s.m.maxConcurrency.cur ≥ 1 ∧
        s.m.maxConcurrency.waiters = 0
    · rw [if_pos hc] at hstep
      simp only [Option.some.injEq] at hstep
      subst hstep
      exact ⟨_, _, rfl, rfl, Or.inr (Or.inl ⟨pvd, id, rfl, rfl, rfl, hc.1, hc.2, rfl⟩)⟩
    · rw [if_neg hc] at hstep
      simp only [Option.some.injEq] at hstep
      subst hstep
      exact ⟨_, _, rfl, rfl, Or.inr (Or.inr (Or.inl ⟨pvd, id, rfl, rfl, rfl, hc, rfl⟩))⟩
  | send pvd id =>
    simp only [stepGoroutine, Option.some.injEq] at hstep
    subst hstep
    exact ⟨_, _, rfl, rfl, Or.inr (Or.inr (Or.inr (Or.inl ⟨pvd, id, rfl,
      (reportDoTimeout_cases s.m pvd id err).1, rfl,
      (reportDoTimeout_cases s.m pvd id err).2.1⟩)))⟩
  | release =>
    simp only [stepGoroutine, reportDeferred, Weighted.Release] at hstep
    by_cases hc : s.m.maxConcurrency.cur - 1 < 0
    · rw [if_pos hc] at hstep
      simp at hstep
    · rw [if_neg hc] at hstep
      simp only [Option.some.injEq] at hstep
      subst hstep
      exact ⟨_, _, rfl, rfl,
        Or.inr (Or.inr (Or.inr (Or.inr (Or.inl ⟨rfl, rfl, rfl, by omega, rfl⟩))))⟩
  | exit e =>
    simp only [stepGoroutine, Option.some.injEq] at hstep
    subst hstep
    exact ⟨_, _, rfl, rfl, Or.inr (Or.inr (Or.inr (Or.inr (Or.inr ⟨e, rfl, rfl, rfl, rfl⟩))))⟩

theorem one_le_countP_of_getElem? {α : Type} (p : α → Bool) (l : List α) (i : Nat) (a : α)
    (h : l[i]? = some a) (hp : p a = true) : 1 ≤ l.countP p := by
  have hmem : a ∈ l := List.mem_iff_getElem?.mpr ⟨i, h⟩
  exact List.countP_pos_iff.mpr ⟨a, hmem, hp⟩

/-- Under the invariant no step panics. -/
theorem step_some (parseBytes : String → Except String JValue) (s : System) (a : Action)
    (h : Inv s) : ∃ s1, step parseBytes s a = some s1 := by
  cases a with
  | fetch reply => exact ⟨_, rfl⟩
  | reap => exact ⟨_, rfl⟩
  | run i err =>
    cases hi : s.goroutines[i]? with
    | none => exact ⟨s, by simp [step, hi]⟩
    | some pc =>
      cases pc with
      | validate c => simp [step, hi, stepGoroutine]
      | acquire pvd id => simp [step, hi, stepGoroutine]
      | send pvd id => simp [step, hi, stepGoroutine]
      | exit e => simp [step, hi, stepGoroutine]
      | release =>
        have h1 := one_le_countP_of_getElem? Pc.holding s.goroutines i .release hi rfl
        have hcur : ¬ (s.m.maxConcurrency.cur - 1 < 0) := by
          have := h.2.1
          omega
        simp [step, hi, stepGoroutine, reportDeferred, Weighted.Release, hcur]

/-- Bookkeeping for `step_inv`: the invariant follows from how the counters moved. -/
theorem inv_of_deltas (s s1 : System) (d r : Int) (h : Inv s)
    (hw : s1.m.maxConcurrency.waiters = s.m.maxConcurrency.waiters)
    (hsize : s1.m.maxConcurrency.size = s.m.maxConcurrency.size)
    (hcur : s1.m.maxConcurrency.cur = s.m.maxConcurrency.cur + d)
    (hhold : (s1.goroutines.countP Pc.holding : Int) = s.goroutines.countP Pc.holding + d)
    (hcap : 0 < d → s.m.maxConcurrency.cur + d ≤ s.m.maxConcurrency.size)
    (hsent : (s1.goroutines.countP Pc.sent : Int) = s.goroutines.countP Pc.sent + r)
    (htrace : (s1.trace.countP Event.isReport : Int) = s.trace.countP Event.isReport + r) :
    Inv s1 := by
  obtain ⟨h1, h2, h3, h4⟩ := h
  refine ⟨by rw [hw]; exact h1, by rw [hcur, hhold, h2], ?_, ?_⟩
  · rw [hcur, hsize]
    rcases lt_or_le 0 d with hd | hd
    · exact le_trans (hcap hd) (le_max_left _ _)
    · exact le_trans (by omega) h3
  · have : (s1.trace.countP Event.isReport : Int) = s1.goroutines.countP Pc.sent := by
      rw [htrace, hsent, h4]
    exact_mod_cast this

/-- Every step keeps the invariant and the capacity of the semaphore. -/
theorem step_inv (parseBytes : String → Except String JValue) (s s1 : System) (a : Action)
    (h : Inv s) (hstep : step parseBytes s a = some s1) :
    Inv s1 ∧ s1.m.maxConcurrency.size = s.m.maxConcurrency.size := by
  cases a with
  | fetch reply =>
    rw [step_fetch_eq] at hstep
    simp only [Option.some.injEq] at hstep
    subst hstep
    refine ⟨inv_of_deltas _ _ 0 0 h rfl rfl (by simp) ?_ (by simp) ?_ ?_, rfl⟩
    · simp [List.countP_append, countP_map_validate Pc.holding (fun _ => rfl)]
    · simp [List.countP_append, countP_map_validate Pc.sent (fun _ => rfl)]
    · simp [List.countP_append, fetch_events_no_report]
  | reap =>
    simp only [step, Option.some.injEq] at hstep
    subst hstep
    exact ⟨h, rfl⟩
  | run i err =>
    cases hi : s.goroutines[i]? with
    | none =>
      simp only [step, hi, Option.some.injEq] at hstep
      subst hstep
      exact ⟨h, rfl⟩
    | some pc =>
      obtain ⟨pc1, evs, hg, ht, hcase⟩ := step_run_cases parseBytes s s1 i err pc hi hstep
      have hH := countP_set_int Pc.holding s.goroutines i pc pc1 hi
      have hS := countP_set_int Pc.sent s.goroutines i pc pc1 hi
      rw [← hg] at hH hS
      have hT : (s1.trace.countP Event.isReport : Int) =
          s.trace.countP Event.isReport + evs.countP Event.isReport := by
        rw [ht, List.countP_append]
        push_cast
        rfl
      rcases hcase with ⟨c, rfl, hm, hev, hpc | hpc | hpc⟩ | ⟨pvd, id, rfl, rfl, rfl, hfree, _, hm⟩ |
        ⟨pvd, id, rfl, rfl, rfl, _, hm⟩ | ⟨pvd, id, rfl, rfl, hm, hev⟩ |
        ⟨rfl, rfl, rfl, hpos, hm⟩ | ⟨e, rfl, rfl, rfl, hm⟩
      · subst hpc
        refine ⟨inv_of_deltas _ _ 0 0 h (by rw [hm]) (by rw [hm]) (by rw [hm]; simp) ?_
          (by simp) ?_ ?_, by rw [hm]⟩
        · simpa [Pc.holding] using hH
        · simpa [Pc.sent] using hS
        · simpa [hev] using hT
      · subst hpc
        refine ⟨inv_of_deltas _ _ 0 0 h (by rw [hm]) (by rw [hm]) (by rw [hm]; simp) ?_
          (by simp) ?_ ?_, by rw [hm]⟩
        · simpa [Pc.holding] using hH
        · simpa [Pc.sent] using hS
        · simpa [hev] using hT
      · subst hpc
        refine ⟨inv_of_deltas _ _ 0 0 h (by rw [hm]) (by rw [hm]) (by rw [hm]; simp) ?_
          (by simp) ?_ ?_, by rw [hm]⟩
        · simpa [Pc.holding] using hH
        · simpa [Pc.sent] using hS
        · simpa [hev] using hT
      · refine ⟨inv_of_deltas _ _ 1 0 h (by rw [hm]) (by rw [hm]) (by rw [hm]) ?_
          (fun _ => by omega) ?_ ?_, by rw [hm]⟩
        · simpa [Pc.holding] using hH
        · simpa [Pc.sent] using hS
        · simpa using hT
      · refine ⟨inv_of_deltas _ _ 0 0 h (by rw [hm]) (by rw [hm]) (by rw [hm]; simp) ?_
          (by simp) ?_ ?_, by rw [hm]⟩
        · simpa [Pc.holding] using hH
        · simpa [Pc.sent] using hS
        · simpa [Event.isReport] using hT
      · have hc : evs.countP Event.isReport = 1 := by
          rw [List.countP_eq_length_filter, hev]
          rfl
        refine ⟨inv_of_deltas _ _ 0 1 h (by rw [hm]) (by rw [hm]) (by rw [hm]; simp) ?_
          (by simp) ?_ ?_, by rw [hm]⟩
        · simpa [Pc.holding] using hH
        · simpa [Pc.sent] using hS
        · simpa [hc] using hT
      · refine ⟨inv_of_deltas _ _ (-1) 0 h (by rw [hm]) (by rw [hm]) (by rw [hm]; rfl) ?_
          (by simp) ?_ ?_, by rw [hm]⟩
        · simpa [Pc.holding, sub_eq_add_neg] using hH
        · simpa [Pc.sent] using hS
        · simpa using hT
      · refine ⟨inv_of_deltas _ _ 0 0 h (by rw [hm]) (by rw [hm]) (by rw [hm]; simp) ?_
          (by simp) ?_ ?_, by rw [hm]⟩
        · rw [hH]
          cases e <;> simp [Pc.holding]
        · rw [hS]
          cases e <;> simp [Pc.sent]
        · simpa using hT

/-- A finite schedule from a state with the invariant never panics and ends in a state with
the invariant and the same capacity. -/
theorem runActions_inv (parseBytes : String → Except String JValue) (acts : List Action)
    (s : System) (h : Inv s) :
    ∃ s1, runActions parseBytes s acts = some s1 ∧ Inv s1 ∧
      s1.m.maxConcurrency.size = s.m.maxConcurrency.size := by
  induction acts generalizing s with
  | nil => exact ⟨s, rfl, h, rfl⟩
  | cons a rest ih =>
    obtain ⟨s1, hs1⟩ := step_some parseBytes s a h
    obtain ⟨hinv, hsize⟩ := step_inv parseBytes s s1 a h hs1
    obtain ⟨s2, hs2, hinv2, hsize2⟩ := ih s1 hinv
    exact ⟨s2, by simp [runActions, hs1, hs2], hinv2, by rw [hsize2, hsize]⟩

theorem lt_length_of_getElem? {α : Type} (l : List α) (i : Nat) (a : α) (h : l[i]? = some a) :
    i < l.length := by
  obtain ⟨hlt, _⟩ := List.getElem?_eq_some.mp h
  exact hlt

/-- How one step of the system moves the program counter of goroutine `i`: it stays, or the
step is a segment of goroutine `i` and the counter advances along `validate` and `report`. -/
theorem step_pc (parseBytes : String → Except String JValue) (s s1 : System) (a : Action)
    (i : Nat) (pc : Pc) (hi : s.goroutines[i]? = some pc)
    (hstep : step parseBytes s a = some s1) :
    s1.goroutines[i]? = some pc ∨
    ((∃ err, a = .run i err) ∧
      ((∃ c, pc = .validate c ∧ (s1.goroutines[i]? = some (.acquire c.pvd c.id) ∨
          s1.goroutines[i]? = some (.exit .unknownDial) ∨
          s1.goroutines[i]? = some (.exit .validated))) ∨
       (∃ pvd id, pc = .acquire pvd id ∧ s1.goroutines[i]? = some (.send pvd id) ∧
          1 ≤ s.m.maxConcurrency.size - s.m.maxConcurrency.cur) ∨
       (∃ pvd id, pc = .send pvd id ∧ s1.goroutines[i]? = some .release) ∨
       (pc = .release ∧ s1.goroutines[i]? = some (.exit .reported)))) := by
  have hlt := lt_length_of_getElem? _ _ _ hi
  cases a with
  | fetch reply =>
    rw [step_fetch_eq] at hstep
    simp only [Option.some.injEq] at hstep
    subst hstep
    exact Or.inl (by simp only [List.getElem?_append_left hlt, hi])
  | reap =>
    simp only [step, Option.some.injEq] at hstep
    subst hstep
    exact Or.inl hi
  | run j err =>
    by_cases hji : j = i
    · subst hji
      obtain ⟨pc1, evs, hg, _, hcase⟩ := step_run_cases parseBytes s s1 j err pc hi hstep
      have h1 : s1.goroutines[j]? = some pc1 := by
        rw [hg]
        exact List.getElem?_set_self hlt
      rcases hcase with ⟨c, rfl, _, _, hpc⟩ | ⟨pvd, id, rfl, rfl, _, hfree, _, _⟩ |
        ⟨pvd, id, rfl, rfl, _, _, _⟩ | ⟨pvd, id, rfl, rfl, _, _⟩ |
        ⟨rfl, rfl, _, _, _⟩ | ⟨e, rfl, rfl, _, _⟩
      · refine Or.inr ⟨⟨err, rfl⟩, Or.inl ⟨c, rfl, ?_⟩⟩
        rcases hpc with h | h | h <;> subst h <;> simp [h1]
      · exact Or.inr ⟨⟨err, rfl⟩, Or.inr (Or.inl ⟨pvd, id, rfl, h1, hfree⟩)⟩
      · exact Or.inl h1
      · exact Or.inr ⟨⟨err, rfl⟩, Or.inr (Or.inr (Or.inl ⟨pvd, id, rfl, h1⟩))⟩
      · exact Or.inr ⟨⟨err, rfl⟩, Or.inr (Or.inr (Or.inr ⟨rfl, h1⟩))⟩
      · exact Or.inl h1
    · cases hj : s.goroutines[j]? with
      | none =>
        simp only [step, hj, Option.some.injEq] at hstep
        subst hstep
        exact Or.inl hi
      | some pcj =>
        obtain ⟨pc1, evs, hg, _, _⟩ := step_run_cases parseBytes s s1 j err pcj hj hstep
        exact Or.inl (by rw [hg, List.getElem?_set_ne hji, hi])

/-- A goroutine that has returned stays where it is, and its segments do nothing. -/
theorem runActions_exit_stable (parseBytes : String → Except String JValue)
    (acts : List Action) (s s1 : System) (i : Nat) (e : ExitPoint)
    (hi : s.goroutines[i]? = some (.exit e))
    (hrun : runActions parseBytes s acts = some s1) :
    s1.goroutines[i]? = some (.exit e) := by
  induction acts generalizing s with
  | nil =>
    simp only [runActions, Option.some.injEq] at hrun
    subst hrun
    exact hi
  | cons a rest ih =>
    simp only [runActions] at hrun
    cases hstep : step parseBytes s a with
    | none => simp [hstep] at hrun
    | some s2 =>
      simp only [hstep] at hrun
      refine ih s2 ?_ hrun
      rcases step_pc parseBytes s s2 a i _ hi hstep with h | ⟨_, h⟩
      · exact h
      · rcases h with ⟨c, hc, _⟩ | ⟨pvd, id, hc, _⟩ | ⟨pvd, id, hc, _⟩ | ⟨hc, _⟩ <;>
          simp at hc

theorem set_same {α : Type} (l : List α) (i : Nat) (a : α) (h : l[i]? = some a) :
    l.set i a = l := by
  apply List.ext_getElem?
  intro j
  by_cases hji : i = j
  · subst hji
    rw [List.getElem?_set_self (lt_length_of_getElem? _ _ _ h), h]
  · rw [List.getElem?_set_ne hji]

theorem step_exit_noop (parseBytes : String → Except String JValue) (s : System) (i : Nat)
    (e : ExitPoint) (err : GoError) (hi : s.goroutines[i]? = some (.exit e)) :
    step parseBytes s (.run i err) = some s := by
  simp [step, hi, stepGoroutine, set_same _ _ _ hi]

/-! ## The segments of one goroutine, from an arbitrary state -/

theorem seg_validate (parseBytes : String → Except String JValue) (s : System) (i : Nat)
    (c : Candidate) (err : GoError) (hi : s.goroutines[i]? = some (.validate c)) :
    step parseBytes s (.run i err) = some
      { m := s.m
        goroutines := s.goroutines.set i (validate s.m c.addr c.dt c.pvd c.id err).2
        trace := s.trace ++ (validate s.m c.addr c.dt c.pvd c.id err).1 } := by
  simp [step, hi, stepGoroutine]

theorem seg_acquire (parseBytes : String → Except String JValue) (s : System) (i : Nat)
    (pvd : String) (id : Int) (err : GoError) (hi : s.goroutines[i]? = some (.acquire pvd id))
    (hfree : 1 ≤ s.m.maxConcurrency.size - s.m.maxConcurrency.cur)
    (hw : s.m.maxConcurrency.waiters = 0) :
    step parseBytes s (.run i err) = some
      { m := { s.m with maxConcurrency :=
          { s.m.maxConcurrency with cur := s.m.maxConcurrency.cur + 1 } }
        goroutines := s.goroutines.set i (.send pvd id)
        trace := s.trace } := by
  simp [step, hi, stepGoroutine, reportTryAcquire, Weighted.TryAcquire, hfree, hw]

theorem seg_send (parseBytes : String → Except String JValue) (s : System) (i : Nat)
    (pvd : String) (id : Int) (err : GoError) (hi : s.goroutines[i]? = some (.send pvd id)) :
    step parseBytes s (.run i err) = some
      { m := s.m
        goroutines := s.goroutines.set i .release
        trace := s.trace ++ (reportDoTimeout s.m pvd id err).1 } := by
  simp [step, hi, stepGoroutine, (reportDoTimeout_cases s.m pvd id err).1]

theorem seg_release (parseBytes : String → Except String JValue) (s : System) (i : Nat)
    (err : GoError) (hi : s.goroutines[i]? = some .release)
    (hheld : 1 ≤ s.m.maxConcurrency.cur) :
    step parseBytes s (.run i err) = some
      { m := { s.m with maxConcurrency :=
          { s.m.maxConcurrency with cur := s.m.maxConcurrency.cur - 1 } }
        goroutines := s.goroutines.set i (.exit .reported)
        trace := s.trace } := by
  have hc : ¬ (s.m.maxConcurrency.cur - 1 < 0) := by omega
  simp [step, hi, stepGoroutine, reportDeferred, Weighted.Release, hc]

theorem runActions_cons_of_step (parseBytes : String → Except String JValue) (s s1 : System)
    (a : Action) (rest : List Action) (h : step parseBytes s a = some s1) :
    runActions parseBytes s (a :: rest) = runActions parseBytes s1 rest := by
  simp [runActions, h]

/-- A whole `report` run on its own, with a unit free at the first poll: one request, and the
maintainer (semaphore included) ends as it began. -/
theorem report_alone (parseBytes : String → Except String JValue) (s : System) (i : Nat)
    (pvd : String) (id : Int) (e0 err e2 : GoError)
    (hi : s.goroutines[i]? = some (.acquire pvd id))
    (hfree : 1 ≤ s.m.maxConcurrency.size - s.m.maxConcurrency.cur)
    (hw : s.m.maxConcurrency.waiters = 0) (hcur : 0 ≤ s.m.maxConcurrency.cur) :
    runActions parseBytes s [.run i e0, .run i err, .run i e2] = some
      { m := s.m
        goroutines := s.goroutines.set i (.exit .reported)
        trace := s.trace ++ (reportDoTimeout s.m pvd id err).1 } := by
  have hlt := lt_length_of_getElem? _ _ _ hi
  obtain ⟨m, gs, tr⟩ := s
  obtain ⟨⟨sz, cur, w⟩, efn, cl, base, chk, db, me⟩ := m
  simp only at hi hfree hw hcur hlt
  have h1 := seg_acquire parseBytes
    ⟨⟨⟨sz, cur, w⟩, efn, cl, base, chk, db, me⟩, gs, tr⟩ i pvd id e0 hi hfree hw
  rw [runActions_cons_of_step _ _ _ _ _ h1]
  have h2 := seg_send parseBytes
    ⟨⟨⟨sz, cur + 1, w⟩, efn, cl, base, chk, db, me⟩, gs.set i (.send pvd id), tr⟩ i pvd id err
    (List.getElem?_set_self hlt)
  rw [runActions_cons_of_step _ _ _ _ _ h2]
  have h3 := seg_release parseBytes
    ⟨⟨⟨sz, cur + 1, w⟩, efn, cl, base, chk, db, me⟩, (gs.set i (.send pvd id)).set i .release,
      tr ++ (reportDoTimeout ⟨⟨sz, cur + 1, w⟩, efn, cl, base, chk, db, me⟩ pvd id err).1⟩ i e2
    (List.getElem?_set_self (by simpa using hlt)) (by show 1 ≤ cur + 1; omega)
  rw [runActions_cons_of_step _ _ _ _ _ h3]
  simp only [runActions, List.set_set, add_sub_cancel_right]
  cases err <;> rfl

theorem seg_poll_fails (parseBytes : String → Except String JValue) (s : System) (i : Nat)
    (pvd : String) (id : Int) (err : GoError) (hi : s.goroutines[i]? = some (.acquire pvd id))
    (hfull : ¬ (1 ≤ s.m.maxConcurrency.size - s.m.maxConcurrency.cur)) :
    step parseBytes s (.run i err) = some { s with trace := s.trace ++ [.sleep 50] } := by
  have hc : ¬ (1 ≤ s.m.maxConcurrency.size - s.m.maxConcurrency.cur ∧
      s.m.maxConcurrency.waiters = 0) := fun h => hfull h.1
  simp [step, hi, stepGoroutine, reportTryAcquire, Weighted.TryAcquire, hc, set_same _ _ _ hi]

/-! ## Startup -/

theorem main_ok (cfg : Config) (store : Except String (List proxy)) (m : maintainer)
    (h : main cfg store = .ok m) :
    m.maxConcurrency =
      NewWeighted (if cfg.max_concurrency = 0 then 10 else cfg.max_concurrency) ∧
    m.eachFetchNum = (if cfg.each_fetch_num = 0 then 10 else cfg.each_fetch_num) ∧
    m.maxErr = (if cfg.max_err = 0 then 5 else cfg.max_err) ∧
    m.client.MaxConnsPerHost =
      wrapInt64 ((if cfg.max_concurrency = 0 then 10 else cfg.max_concurrency) * 2) ∧
    m.pxierBaseUrl = cfg.pxier_base_url ∧ m.checkUrl = cfg.check_connection_url := by
  unfold main at h
  simp only at h
  split at h
  · simp at h
  · split at h
    · simp at h
    · split at h
      · simp at h
      · simp only [Except.ok.injEq] at h
        subst h
        exact ⟨rfl, rfl, rfl, rfl, rfl, rfl⟩

/-! ## A semaphore of negative capacity -/

/-- With a negative capacity no step lets a goroutine past the polling loop. -/
theorem step_blocked (parseBytes : String → Except String JValue) (s s1 : System) (a : Action)
    (h : Inv s) (hneg : s.m.maxConcurrency.size < 0)
    (hsent : s.goroutines.countP Pc.sent = 0)
    (hstep : step parseBytes s a = some s1) :
    s1.goroutines.countP Pc.sent = 0 ∧
    ∀ (i : Nat) (pvd : String) (id : Int), s.goroutines[i]? = some (.acquire pvd id) →
      s1.goroutines[i]? = some (.acquire pvd id) := by
  obtain ⟨_, hcur, hcap, _⟩ := h
  have hmax : max s.m.maxConcurrency.size 0 = 0 := max_eq_right (by omega)
  have hnohold : s.goroutines.countP Pc.holding = 0 := by omega
  constructor
  · cases a with
    | fetch reply =>
      rw [step_fetch_eq] at hstep
      simp only [Option.some.injEq] at hstep
      subst hstep
      simp [List.countP_append, countP_map_validate Pc.sent (fun _ => rfl), hsent]
    | reap =>
      simp only [step, Option.some.injEq] at hstep
      subst hstep
      exact hsent
    | run i err =>
      cases hi : s.goroutines[i]? with
      | none =>
        simp only [step, hi, Option.some.injEq] at hstep
        subst hstep
        exact hsent
      | some pc =>
        obtain ⟨pc1, evs, hg, _, hcase⟩ := step_run_cases parseBytes s s1 i err pc hi hstep
        have hS := countP_set_int Pc.sent s.goroutines i pc pc1 hi
        have h1H : Pc.holding pc = true → 1 ≤ s.goroutines.countP Pc.holding :=
          one_le_countP_of_getElem? Pc.holding s.goroutines i pc hi
        rw [← hg, hsent] at hS
        rcases hcase with ⟨c, rfl, _, _, hpc | hpc | hpc⟩ | ⟨pvd, id, rfl, rfl, _, _, _, _⟩ |
          ⟨pvd, id, rfl, rfl, _, _, _⟩ | ⟨pvd, id, rfl, rfl, _, _⟩ |
          ⟨rfl, rfl, _, _, _⟩ | ⟨e, rfl, rfl, _, _⟩
        · subst hpc
          simpa [Pc.sent] using hS
        · subst hpc
          simpa [Pc.sent] using hS
        · subst hpc
          simpa [Pc.sent] using hS
        · simpa [Pc.sent] using hS
        · simpa [Pc.sent] using hS
        · have := h1H rfl
          omega
        · have := h1H rfl
          omega
        · have : ((s1.goroutines.countP Pc.sent : Nat) : Int) = 0 := by
            rw [hS]
            cases e <;> simp [Pc.sent]
          exact_mod_cast this
  · intro i pvd id hi
    rcases step_pc parseBytes s s1 a i _ hi hstep with h | ⟨_, h⟩
    · exact h
    · rcases h with ⟨c, hc, _⟩ | ⟨pvd1, id1, _, _, hfree⟩ | ⟨pvd1, id1, hc, _⟩ | ⟨hc, _⟩
      · simp at hc
      · omega
      · simp at hc
      · simp at hc

theorem runActions_blocked (parseBytes : String → Except String JValue) (acts : List Action)
    (s : System) (h : Inv s) (hneg : s.m.maxConcurrency.size < 0)
    (hsent : s.goroutines.countP Pc.sent = 0) :
    ∃ s1, runActions parseBytes s acts = some s1 ∧ Inv s1 ∧
      s1.m.maxConcurrency.size = s.m.maxConcurrency.size ∧
      s1.goroutines.countP Pc.sent = 0 ∧
      ∀ (i : Nat) (pvd : String) (id : Int), s.goroutines[i]? = some (.acquire pvd id) →
        s1.goroutines[i]? = some (.acquire pvd id) := by
  induction acts generalizing s with
  | nil => exact ⟨s, rfl, h, rfl, hsent, fun _ _ _ hi => hi⟩
  | cons a rest ih =>
    obtain ⟨s1, hs1⟩ := step_some parseBytes s a h
    obtain ⟨hinv, hsize⟩ := step_inv parseBytes s s1 a h hs1
    obtain ⟨hsent1, hacq1⟩ := step_blocked parseBytes s s1 a h hneg hsent hs1
    obtain ⟨s2, hs2, hinv2, hsize2, hsent2, hacq2⟩ := ih s1 hinv (by rw [hsize]; exact hneg) hsent1
    exact ⟨s2, by rw [runActions_cons_of_step _ _ _ _ _ hs1, hs2], hinv2,
      by rw [hsize2, hsize], hsent2, fun i pvd id hi => hacq2 i pvd id (hacq1 i pvd id hi)⟩

theorem wrapInt64_double (x : Int) (hlo : -(2 ^ 62) ≤ x) (hhi : x < 2 ^ 62) :
    wrapInt64 (x * 2) = 2 * x := by
  unfold wrapInt64
  omega

/-! ## C9: effective settings -/

/-- C9, the claim as stated fails: with `max_concurrency = 2 ^ 62` the budget gets capacity
`2 ^ 62`, but `int(maxConcurrency * 2)` wraps around and the per-host connection limit is
`-(2 ^ 63)`, not twice the capacity. -/
theorem main_max_conns_wraps_at_huge_concurrency :
    main hugeConfig (.ok []) =
      .ok ⟨NewWeighted (2 ^ 62), 10, ⟨-(2 ^ 63)⟩, "http://inv", "http://check", [], 5⟩ ∧
    (-(2 ^ 63) : Int) ≠ 2 * 2 ^ 62 := by
  constructor
  · rfl
  · decide

/-- C9, amended: when the required options are present and the store opens, `main` builds a
maintainer whose `max_concurrency` is 10 when the option reads 0 and the value read otherwise,
likewise `each_fetch_num` (default 10) and `max_err` (default 5); the budget is created with
capacity equal to the effective `max_concurrency` (nothing held, nobody queued), and the
per-host connection limit is twice that value wrapped to 64 bits, hence exactly twice it
whenever the effective value lies in `[-2^62, 2^62)`. -/
theorem main_effective_settings (cfg : Config) (rows : List proxy)
    (hbase : cfg.pxier_base_url.length ≠ 0) (hcheck : cfg.check_connection_url.length ≠ 0)
    (hdb : cfg.write_db.length ≠ 0) :
    ∃ m, main cfg (.ok rows) = .ok m ∧
      m.maxConcurrency =
        NewWeighted (if cfg.max_concurrency = 0 then 10 else cfg.max_concurrency) ∧
      m.maxConcurrency.size = (if cfg.max_concurrency = 0 then 10 else cfg.max_concurrency) ∧
      m.eachFetchNum = (if cfg.each_fetch_num = 0 then 10 else cfg.each_fetch_num) ∧
      m.maxErr = (if cfg.max_err = 0 then 5 else cfg.max_err) ∧
      m.client.MaxConnsPerHost = wrapInt64 (m.maxConcurrency.size * 2) ∧
      (-(2 ^ 62) ≤ m.maxConcurrency.size → m.maxConcurrency.size < 2 ^ 62 →
        m.client.MaxConnsPerHost = 2 * m.maxConcurrency.size) := by
  have hmain : ∃ m, main cfg (.ok rows) = .ok m := by
    simp [main, newWriteDB, hbase, hcheck, hdb]
  obtain ⟨m, hm⟩ := hmain
  obtain ⟨h1, h2, h3, h4, _, _⟩ := main_ok cfg (.ok rows) m hm
  have hsize : m.maxConcurrency.size =
      (if cfg.max_concurrency = 0 then 10 else cfg.max_concurrency) := by
    rw [h1]
    rfl
  refine ⟨m, hm, h1, hsize, h2, h3, by rw [h4, hsize], ?_⟩
  intro hlo hhi
  rw [h4, ← hsize]
  exact wrapInt64_double _ hlo hhi

/-- C9, amended, at the default settings: capacity 10 and a per-host limit of 20. -/
theorem main_effective_settings_witness :
    ∃ m, main defaultConfig (.ok []) = .ok m ∧
      m.maxConcurrency =
        NewWeighted (if defaultConfig.max_concurrency = 0 then 10
          else defaultConfig.max_concurrency) ∧
      m.maxConcurrency.size = (if defaultConfig.max_concurrency = 0 then 10
          else defaultConfig.max_concurrency) ∧
      m.eachFetchNum = (if defaultConfig.each_fetch_num = 0 then 10
          else defaultConfig.each_fetch_num) ∧
      m.maxErr = (if defaultConfig.max_err = 0 then 5 else defaultConfig.max_err) ∧
      m.client.MaxConnsPerHost = wrapInt64 (m.maxConcurrency.size * 2) ∧
      (-(2 ^ 62) ≤ m.maxConcurrency.size → m.maxConcurrency.size < 2 ^ 62 →
        m.client.MaxConnsPerHost = 2 * m.maxConcurrency.size) :=
  main_effective_settings defaultConfig [] (by decide) (by decide) (by decide)

/-! ## C6: the Reaper sweep -/

/-- C6: one sweep keeps exactly the records whose error count is below `maxErr`, unchanged and
in their order, removes exactly those at or above it, and touches nothing else of the
maintainer; with error counts 0, 4, 5, 9 and `maxErr = 5` the records with counts 5 and 9 go and
the other two stay. -/
theorem removeDeadProxy_removes_exactly_dead (m : maintainer) :
    (removeDeadProxy m).writeDB = m.writeDB.filter (fun p => decide (p.ErrTimes < m.maxErr)) ∧
    (∀ p, p ∈ (removeDeadProxy m).writeDB ↔ p ∈ m.writeDB ∧ p.ErrTimes < m.maxErr) ∧
    (∀ p, p ∈ m.writeDB → p.ErrTimes ≥ m.maxErr → p ∉ (removeDeadProxy m).writeDB) ∧
    (removeDeadProxy m).writeDB.Sublist m.writeDB ∧
    removeDeadProxy m = { m with writeDB := (removeDeadProxy m).writeDB } ∧
    (removeDeadProxy { exMaintainer with writeDB := scenario4Rows }).writeDB =
      [⟨1, "10.0.0.1:80", "alpha", 100, 100, 0, "http"⟩,
       ⟨2, "10.0.0.2:80", "alpha", 100, 200, 4, "http"⟩] := by
  have hfilter : (removeDeadProxy m).writeDB =
      m.writeDB.filter (fun p => decide (p.ErrTimes < m.maxErr)) := by
    simp only [removeDeadProxy, deleteWhere]
    congr 1
    funext p
    by_cases h : p.ErrTimes < m.maxErr
    · have h2 : ¬ (p.ErrTimes ≥ m.maxErr) := by omega
      simp [h, h2]
    · have h2 : p.ErrTimes ≥ m.maxErr := by omega
      simp [h, h2]
  refine ⟨hfilter, ?_, ?_, ?_, rfl, by decide⟩
  · intro p
    rw [hfilter]
    simp [List.mem_filter]
  · intro p _ hge
    rw [hfilter]
    simp only [List.mem_filter, decide_eq_true_eq, not_and, not_lt]
    intro _
    exact hge
  · rw [hfilter]
    exact List.filter_sublist _

/-! ## Infinite executions: progress of a waiting report -/

/-- The reports completed are among the reports entered. -/
theorem completed_le_entered (l : List Pc) :
    l.countP Pc.completed ≤ l.countP Pc.enteredReport := by
  apply List.countP_mono_left
  intro pc _ h
  cases pc with
  | exit e => cases e <;> simp_all [Pc.completed, Pc.enteredReport]
  | _ => simp [Pc.completed] at h

/-- A step never undoes a completed report, and a goroutine that completes its report in this
step raises the count of completed reports. -/
theorem step_completed (parseBytes : String → Except String JValue) (s s1 : System)
    (a : Action) (hstep : step parseBytes s a = some s1) :
    s.goroutines.countP Pc.completed ≤ s1.goroutines.countP Pc.completed ∧
    ∀ (j : Nat) (pc : Pc), s.goroutines[j]? = some pc → Pc.completed pc = false →
      s1.goroutines[j]? = some (.exit .reported) →
      s.goroutines.countP Pc.completed + 1 ≤ s1.goroutines.countP Pc.completed := by
  have hsame : s1.goroutines = s.goroutines →
      s.goroutines.countP Pc.completed ≤ s1.goroutines.countP Pc.completed ∧
      ∀ (j : Nat) (pc : Pc), s.goroutines[j]? = some pc → Pc.completed pc = false →
        s1.goroutines[j]? = some (.exit .reported) →
        s.goroutines.countP Pc.completed + 1 ≤ s1.goroutines.countP Pc.completed := by
    intro heq
    rw [heq]
    refine ⟨le_refl _, ?_⟩
    intro j pc hj hpc hj1
    rw [hj] at hj1
    simp only [Option.some.injEq] at hj1
    subst hj1
    simp [Pc.completed] at hpc
  cases a with
  | fetch reply =>
    rw [step_fetch_eq] at hstep
    simp only [Option.some.injEq] at hstep
    subst hstep
    refine ⟨by simp [List.countP_append], ?_⟩
    intro j pc hj hpc hj1
    have hlt := lt_length_of_getElem? _ _ _ hj
    simp only [List.getElem?_append_left hlt] at hj1
    rw [hj] at hj1
    simp only [Option.some.injEq] at hj1
    subst hj1
    simp [Pc.completed] at hpc
  | reap =>
    simp only [step, Option.some.injEq] at hstep
    subst hstep
    exact hsame rfl
  | run i err =>
    cases hi : s.goroutines[i]? with
    | none =>
      simp only [step, hi, Option.some.injEq] at hstep
      subst hstep
      exact hsame rfl
    | some pci =>
      obtain ⟨pc1, evs, hg, _, hcase⟩ := step_run_cases parseBytes s s1 i err pci hi hstep
      have hC := countP_set_int Pc.completed s.goroutines i pci pc1 hi
      rw [← hg] at hC
      have hkeep : Pc.completed pci = true → Pc.completed pc1 = true := by
        intro hc
        rcases hcase with ⟨c, rfl, _⟩ | ⟨pvd, id, rfl, _⟩ | ⟨pvd, id, rfl, _⟩ |
          ⟨pvd, id, rfl, _⟩ | ⟨rfl, _⟩ | ⟨e, rfl, rfl, _⟩
        · simp [Pc.completed] at hc
        · simp [Pc.completed] at hc
        · simp [Pc.completed] at hc
        · simp [Pc.completed] at hc
        · simp [Pc.completed] at hc
        · exact hc
      constructor
      · cases h0 : Pc.completed pci with
        | true =>
          rw [h0, hkeep h0] at hC
          simp only [if_true] at hC
          omega
        | false =>
          rw [h0] at hC
          cases h1 : Pc.completed pc1 <;> rw [h1] at hC <;> simp at hC <;> omega
      · intro j pc hj hpc hj1
        by_cases hji : i = j
        · subst hji
          rw [hi] at hj
          simp only [Option.some.injEq] at hj
          subst hj
          have hlt := lt_length_of_getElem? _ _ _ hi
          rw [hg, List.getElem?_set_self hlt] at hj1
          simp only [Option.some.injEq] at hj1
          subst hj1
          rw [hpc] at hC
          simp [Pc.completed] at hC
          omega
        · rw [hg, List.getElem?_set_ne hji, hj] at hj1
          simp only [Option.some.injEq] at hj1
          subst hj1
          simp [Pc.completed] at hpc

theorem exec_inv (parseBytes : String → Except String JValue) (σ : Nat → System)
    (α : Nat → Action) (hstep : ∀ n, step parseBytes (σ n) (α n) = some (σ (n + 1)))
    (h0 : Inv (σ 0)) (n : Nat) :
    Inv (σ n) ∧ (σ n).m.maxConcurrency.size = (σ 0).m.maxConcurrency.size := by
  induction n with
  | zero => exact ⟨h0, rfl⟩
  | succ n ih =>
    obtain ⟨h1, h2⟩ := step_inv parseBytes (σ n) (σ (n + 1)) (α n) ih.1 (hstep n)
    exact ⟨h1, by rw [h2, ih.2]⟩

theorem exec_completed_mono (parseBytes : String → Except String JValue) (σ : Nat → System)
    (α : Nat → Action) (hstep : ∀ n, step parseBytes (σ n) (α n) = some (σ (n + 1)))
    (n d : Nat) :
    (σ n).goroutines.countP Pc.completed ≤ (σ (n + d)).goroutines.countP Pc.completed := by
  induction d with
  | zero => exact le_refl _
  | succ d ih =>
    exact le_trans ih (step_completed parseBytes _ _ _ (hstep (n + d))).1

/-- Between a state where goroutine `j` has not completed its report and a later state where
it has, the count of completed reports grows. -/
theorem exec_completed_strict (parseBytes : String → Except String JValue) (σ : Nat → System)
    (α : Nat → Action) (hstep : ∀ n, step parseBytes (σ n) (α n) = some (σ (n + 1)))
    (j : Nat) (d : Nat) :
    ∀ (n : Nat) (pc : Pc), (σ n).goroutines[j]? = some pc → Pc.completed pc = false →
      (σ (n + d)).goroutines[j]? = some (.exit .reported) →
      (σ n).goroutines.countP Pc.completed + 1 ≤
        (σ (n + d)).goroutines.countP Pc.completed := by
  induction d with
  | zero =>
    intro n pc hj hpc hj1
    rw [Nat.add_zero, hj] at hj1
    simp only [Option.some.injEq] at hj1
    subst hj1
    simp [Pc.completed] at hpc
  | succ d ih =>
    intro n pc hj hpc hj1
    have hidx : n + (d + 1) = (n + 1) + d := by omega
    rw [hidx] at hj1 ⊢
    have hs := step_completed parseBytes _ _ _ (hstep n)
    have hnext : ∃ pc1, (σ (n + 1)).goroutines[j]? = some pc1 := by
      rcases step_pc parseBytes _ _ _ j pc hj (hstep n) with h | ⟨_, h⟩
      · exact ⟨_, h⟩
      · rcases h with ⟨c, _, h | h | h⟩ | ⟨pvd, id, _, h, _⟩ | ⟨pvd, id, _, h⟩ | ⟨_, h⟩ <;>
          exact ⟨_, h⟩
    obtain ⟨pc1, hpc1⟩ := hnext
    cases hc : Pc.completed pc1 with
    | true =>
      have hpc1eq : pc1 = .exit .reported := by
        cases pc1 with
        | exit e => cases e <;> simp_all [Pc.completed]
        | _ => simp [Pc.completed] at hc
      subst hpc1eq
      have h1 := hs.2 j pc hj hpc hpc1
      have h2 := exec_completed_mono parseBytes σ α hstep (n + 1) d
      omega
    | false =>
      have h1 := ih (n + 1) pc1 hpc1 hc hj1
      have h2 := hs.1
      omega

/-- A goroutine in the polling loop stays there until it acquires a unit. -/
theorem exec_acquire_until_send (parseBytes : String → Except String JValue)
    (σ : Nat → System) (α : Nat → Action)
    (hstep : ∀ n, step parseBytes (σ n) (α n) = some (σ (n + 1)))
    (n i : Nat) (pvd : String) (id : Int)
    (hi : (σ n).goroutines[i]? = some (.acquire pvd id)) (d : Nat) :
    (σ (n + d)).goroutines[i]? = some (.acquire pvd id) ∨
    ∃ k, n ≤ k ∧ k ≤ n + d ∧ (σ k).goroutines[i]? = some (.send pvd id) := by
  induction d with
  | zero => exact Or.inl hi
  | succ d ih =>
    rcases ih with h | ⟨k, hk1, hk2, hk⟩
    · rcases step_pc parseBytes _ _ _ i _ h (hstep (n + d)) with h1 | ⟨_, h1⟩
      · exact Or.inl h1
      · rcases h1 with ⟨c, hc, _⟩ | ⟨pvd1, id1, hc, h2, _⟩ | ⟨pvd1, id1, hc, _⟩ | ⟨hc, _⟩
        · simp at hc
        · simp only [Pc.acquire.injEq] at hc
          obtain ⟨rfl, rfl⟩ := hc
          exact Or.inr ⟨n + d + 1, by omega, by omega, h2⟩
        · simp at hc
        · simp at hc
    · exact Or.inr ⟨k, hk1, by omega, hk⟩

/-- One round of waiting: a goroutine in the polling loop either acquires a unit, or is still
polling at a later state by which some other report has completed. -/
theorem exec_poll_or_progress (parseBytes : String → Except String JValue)
    (σ : Nat → System) (α : Nat → Action)
    (hstep : ∀ n, step parseBytes (σ n) (α n) = some (σ (n + 1)))
    (h0 : Inv (σ 0)) (hsize : 0 < (σ 0).m.maxConcurrency.size)
    (hrelease : ∀ (n i : Nat) (pc : Pc), (σ n).goroutines[i]? = some pc →
      Pc.holding pc = true → ∃ k, n ≤ k ∧ (σ k).goroutines[i]? = some (.exit .reported))
    (hpoll : ∀ (n i : Nat) (pvd : String) (id : Int),
      (σ n).goroutines[i]? = some (.acquire pvd id) → ∃ k err, n ≤ k ∧ α k = .run i err)
    (n i : Nat) (pvd : String) (id : Int)
    (hi : (σ n).goroutines[i]? = some (.acquire pvd id)) :
    (∃ k, n ≤ k ∧ (σ k).goroutines[i]? = some (.send pvd id)) ∨
    ∃ k, n ≤ k ∧ (σ k).goroutines[i]? = some (.acquire pvd id) ∧
      (σ n).goroutines.countP Pc.completed + 1 ≤ (σ k).goroutines.countP Pc.completed := by
  obtain ⟨k, err, hnk, hαk⟩ := hpoll n i pvd id hi
  obtain ⟨d, rfl⟩ := Nat.exists_eq_add_of_le hnk
  rcases exec_acquire_until_send parseBytes σ α hstep n i pvd id hi d with hk | ⟨k1, h1, _, h2⟩
  swap
  · exact Or.inl ⟨k1, h1, h2⟩
  have hs := hstep (n + d)
  rw [hαk] at hs
  obtain ⟨pc1, evs, hg, _, hcase⟩ := step_run_cases parseBytes _ _ i err _ hk hs
  have hlt := lt_length_of_getElem? _ _ _ hk
  rcases hcase with ⟨c, hc, _⟩ | ⟨pvd1, id1, hc, rfl, _⟩ | ⟨pvd1, id1, hc, _, _, hfull, _⟩ |
    ⟨pvd1, id1, hc, _⟩ | ⟨hc, _⟩ | ⟨e, hc, _⟩
  · simp at hc
  · simp only [Pc.acquire.injEq] at hc
    obtain ⟨rfl, rfl⟩ := hc
    exact Or.inl ⟨n + d + 1, by omega, by rw [hg]; exact List.getElem?_set_self hlt⟩
  · obtain ⟨⟨hw, hcur, _, _⟩, hsz⟩ := exec_inv parseBytes σ α hstep h0 (n + d)
    have hfull2 : ¬ (1 ≤ (σ (n + d)).m.maxConcurrency.size -
        (σ (n + d)).m.maxConcurrency.cur) := fun h => hfull ⟨h, hw⟩
    have hpos : 0 < (σ (n + d)).goroutines.countP Pc.holding := by
      rw [hsz] at hfull2
      omega
    obtain ⟨pcj, hmem, hhold⟩ := List.countP_pos_iff.mp hpos
    obtain ⟨j, hj⟩ := List.mem_iff_getElem?.mp hmem
    obtain ⟨k2, hk2, hdone⟩ := hrelease (n + d) j pcj hj hhold
    obtain ⟨d2, rfl⟩ := Nat.exists_eq_add_of_le hk2
    have hnc : Pc.completed pcj = false := by
      cases pcj with
      | exit e => simp [Pc.holding] at hhold
      | _ => rfl
    have hstrict := exec_completed_strict parseBytes σ α hstep j d2 (n + d) pcj hj hnc hdone
    have hmono := exec_completed_mono parseBytes σ α hstep n d
    rcases exec_acquire_until_send parseBytes σ α hstep n i pvd id hi (d + d2) with
      h3 | ⟨k3, h3, _, h4⟩
    · refine Or.inr ⟨n + d + d2, by omega, ?_, by omega⟩
      rw [Nat.add_assoc]
      exact h3
    · exact Or.inl ⟨k3, h3, h4⟩
  · simp at hc
  · simp at hc
  · simp at hc

/-- Under a bounded number of reports, a goroutine in the polling loop acquires a unit. -/
theorem exec_waiting_acquires (parseBytes : String → Except String JValue)
    (σ : Nat → System) (α : Nat → Action)
    (hstep : ∀ n, step parseBytes (σ n) (α n) = some (σ (n + 1)))
    (h0 : Inv (σ 0)) (hsize : 0 < (σ 0).m.maxConcurrency.size) (F : Nat)
    (hload : ∀ n, (σ n).goroutines.countP Pc.enteredReport ≤ F)
    (hrelease : ∀ (n i : Nat) (pc : Pc), (σ n).goroutines[i]? = some pc →
      Pc.holding pc = true → ∃ k, n ≤ k ∧ (σ k).goroutines[i]? = some (.exit .reported))
    (hpoll : ∀ (n i : Nat) (pvd : String) (id : Int),
      (σ n).goroutines[i]? = some (.acquire pvd id) → ∃ k err, n ≤ k ∧ α k = .run i err)
    (i : Nat) (pvd : String) (id : Int) (r : Nat) :
    ∀ n, F - (σ n).goroutines.countP Pc.completed ≤ r →
      (σ n).goroutines[i]? = some (.acquire pvd id) →
      ∃ k, n ≤ k ∧ (σ k).goroutines[i]? = some (.send pvd id) := by
  induction r with
  | zero =>
    intro n hr hi
    rcases exec_poll_or_progress parseBytes σ α hstep h0 hsize hrelease hpoll n i pvd id hi with
      h | ⟨k, _, _, hk⟩
    · exact h
    · have h1 := le_trans (completed_le_entered (σ k).goroutines) (hload k)
      omega
  | succ r ih =>
    intro n hr hi
    rcases exec_poll_or_progress parseBytes σ α hstep h0 hsize hrelease hpoll n i pvd id hi with
      h | ⟨k, hnk, hik, hk⟩
    · exact h
    · have h1 := le_trans (completed_le_entered (σ k).goroutines) (hload k)
      obtain ⟨k2, hk2, hsend⟩ := ih k (by omega) hik
      exact ⟨k2, by omega, hsend⟩

/-! ## C8: no starvation under finite load -/

/-- C8: take any infinite execution from the state `main` leaves behind, with a budget of
positive capacity `C`, in which the number of goroutines that ever enter `report` is bounded
(finite load), every goroutine holding a unit eventually releases it and returns, and every
goroutine in the polling loop is scheduled again and again. Then every goroutine found in the
polling loop later acquires a unit (with the provider and id it reports) and after that
completes its report. -/
theorem waiting_report_eventually_completes (parseBytes : String → Except String JValue)
    (m : maintainer) (C : Int) (hC : 0 < C) (hm : m.maxConcurrency = NewWeighted C)
    (σ : Nat → System) (α : Nat → Action) (hinit : σ 0 = boot m)
    (hstep : ∀ n, step parseBytes (σ n) (α n) = some (σ (n + 1)))
    (F : Nat) (hload : ∀ n, (σ n).goroutines.countP Pc.enteredReport ≤ F)
    (hrelease : ∀ (n i : Nat) (pc : Pc), (σ n).goroutines[i]? = some pc →
      Pc.holding pc = true → ∃ k, n ≤ k ∧ (σ k).goroutines[i]? = some (.exit .reported))
    (hpoll : ∀ (n i : Nat) (pvd : String) (id : Int),
      (σ n).goroutines[i]? = some (.acquire pvd id) → ∃ k err, n ≤ k ∧ α k = .run i err)
    (n i : Nat) (pvd : String) (id : Int)
    (hwait : (σ n).goroutines[i]? = some (.acquire pvd id)) :
    ∃ k, n ≤ k ∧ (σ k).goroutines[i]? = some (.send pvd id) ∧
      ∃ k2, k ≤ k2 ∧ (σ k2).goroutines[i]? = some (.exit .reported) := by
  have h0 : Inv (σ 0) := by
    rw [hinit]
    exact inv_boot m C hm
  have hsize : 0 < (σ 0).m.maxConcurrency.size := by
    rw [hinit]
    simp [boot, hm, NewWeighted, hC]
  obtain ⟨k, hnk, hsend⟩ := exec_waiting_acquires parseBytes σ α hstep h0 hsize F hload
    hrelease hpoll i pvd id _ n (le_refl _) hwait
  obtain ⟨k2, hk2, hdone⟩ := hrelease k i _ hsend rfl
  exact ⟨k, hnk, hsend, k2, hk2, hdone⟩

/-! ## C2: the budget bounds the reports in flight -/

/-- C2: with a budget of positive capacity `C`, every finite schedule from the state `main`
leaves behind (any fetches, any probe and report outcomes, any interleaving of the goroutines)
runs without panic and ends in a state where the number of goroutines that have acquired a
unit and not yet released it equals the units held and is at most `C`. -/
theorem in_flight_reports_bounded_by_capacity (parseBytes : String → Except String JValue)
    (m : maintainer) (C : Int) (hC : 0 < C) (hm : m.maxConcurrency = NewWeighted C)
    (acts : List Action) :
    ∃ s, runActions parseBytes (boot m) acts = some s ∧
      (inFlight s : Int) ≤ C ∧
      s.m.maxConcurrency.cur = (inFlight s : Int) ∧
      s.m.maxConcurrency.size = C := by
  obtain ⟨s, hs, ⟨_, hcur, hcap, _⟩, hsize⟩ :=
    runActions_inv parseBytes acts (boot m) (inv_boot m C hm)
  have hsz : s.m.maxConcurrency.size = C := by
    rw [hsize]
    simp [boot, hm, NewWeighted]
  refine ⟨s, hs, ?_, hcur, hsz⟩
  unfold inFlight
  rw [hsz, max_eq_left (le_of_lt hC)] at hcap
  omega

set_option maxRecDepth 100000 in
/-- C2 in scenario 3: twenty candidates fail and all poll with `max_concurrency = 5`; at most
five reports are in flight, and in this schedule exactly five are. -/
theorem in_flight_reports_bounded_by_capacity_witness :
    (∃ s, runActions scenario3Parse (boot scenario3Maintainer) scenario3Burst = some s ∧
      (inFlight s : Int) ≤ 5 ∧
      s.m.maxConcurrency.cur = (inFlight s : Int) ∧
      s.m.maxConcurrency.size = 5) ∧
    (runActions scenario3Parse (boot scenario3Maintainer) scenario3Burst).map inFlight =
      some 5 :=
  ⟨in_flight_reports_bounded_by_capacity scenario3Parse scenario3Maintainer 5 (by decide) rfl
    scenario3Burst, by decide⟩

/-! ## C10: a negative `max_concurrency` -/

/-- C10: when `max_concurrency` reads negative, `main` keeps it and builds the budget with that
negative capacity; then in every state reached by any finite schedule nothing has been
acquired (the semaphore is as `NewWeighted` made it), no report is in flight, no goroutine has
sent a report and there is no report request in the trace; every poll of a goroutine in the
polling loop fails and sleeps, and that goroutine is still in the polling loop after any
further schedule. -/
theorem negative_max_concurrency_blocks_every_report
    (parseBytes : String → Except String JValue) (cfg : Config)
    (store : Except String (List proxy)) (m : maintainer)
    (hneg : cfg.max_concurrency < 0) (hmain : main cfg store = .ok m) (acts : List Action) :
    m.maxConcurrency = NewWeighted cfg.max_concurrency ∧
    ∃ s, runActions parseBytes (boot m) acts = some s ∧
      s.m.maxConcurrency = NewWeighted cfg.max_concurrency ∧
      inFlight s = 0 ∧
      s.goroutines.countP Pc.sent = 0 ∧
      s.trace.countP Event.isReport = 0 ∧
      ∀ (i : Nat) (pvd : String) (id : Int), s.goroutines[i]? = some (.acquire pvd id) →
        (∀ err, step parseBytes s (.run i err) =
          some { s with trace := s.trace ++ [.sleep 50] }) ∧
        ∀ acts2, ∃ s2, runActions parseBytes s acts2 = some s2 ∧
          s2.goroutines[i]? = some (.acquire pvd id) := by
  have hm : m.maxConcurrency = NewWeighted cfg.max_concurrency := by
    have h := (main_ok cfg store m hmain).1
    rw [if_neg (by omega)] at h
    exact h
  refine ⟨hm, ?_⟩
  have hb0 : (boot m).m.maxConcurrency.size < 0 := by
    simp [boot, hm, NewWeighted, hneg]
  obtain ⟨s, hs, hinv, hsize, hsent, _⟩ :=
    runActions_blocked parseBytes acts (boot m) (inv_boot m _ hm) hb0 rfl
  have hsz : s.m.maxConcurrency.size = cfg.max_concurrency := by
    rw [hsize]
    simp [boot, hm, NewWeighted]
  have hnegs : s.m.maxConcurrency.size < 0 := by
    rw [hsz]
    exact hneg
  obtain ⟨hw, hcur, hcap, htr⟩ := hinv
  have hmax : max s.m.maxConcurrency.size 0 = 0 := max_eq_right (by omega)
  have hcur0 : s.m.maxConcurrency.cur = 0 := by omega
  have hsem : s.m.maxConcurrency = NewWeighted cfg.max_concurrency := by
    cases hsemv : s.m.maxConcurrency with
    | mk sz cur w =>
      rw [hsemv] at hsz hcur0 hw
      simp only at hsz hcur0 hw
      subst hsz hcur0 hw
      rfl
  refine ⟨s, hs, hsem, ?_, hsent, by rw [htr, hsent], ?_⟩
  · unfold inFlight
    omega
  · intro i pvd id hi
    constructor
    · intro err
      exact seg_poll_fails parseBytes s i pvd id err hi (by omega)
    · intro acts2
      obtain ⟨s2, hs2, _, _, _, hacq⟩ :=
        runActions_blocked parseBytes acts2 s ⟨hw, hcur, hcap, htr⟩ hnegs hsent
      exact ⟨s2, hs2, hacq i pvd id hi⟩

/-- C10 at `max_concurrency = -3` along the schedule of scenario 1. -/
theorem negative_max_concurrency_blocks_every_report_witness :
    negMaintainer.maxConcurrency = NewWeighted negConfig.max_concurrency ∧
    ∃ s, runActions scenario1Parse (boot negMaintainer) scenario1Schedule = some s ∧
      s.m.maxConcurrency = NewWeighted negConfig.max_concurrency ∧
      inFlight s = 0 ∧
      s.goroutines.countP Pc.sent = 0 ∧
      s.trace.countP Event.isReport = 0 ∧
      ∀ (i : Nat) (pvd : String) (id : Int), s.goroutines[i]? = some (.acquire pvd id) →
        (∀ err, step scenario1Parse s (.run i err) =
          some { s with trace := s.trace ++ [.sleep 50] }) ∧
        ∀ acts2, ∃ s2, runActions scenario1Parse s acts2 = some s2 ∧
          s2.goroutines[i]? = some (.acquire pvd id) :=
  negative_max_concurrency_blocks_every_report scenario1Parse negConfig (.ok []) negMaintainer
    (by decide) rfl scenario1Schedule

/-! ## C4: unknown dial types -/

/-- C4: a goroutine validating a candidate whose dial type is neither `http` nor `socks5`
returns in its first segment, whatever the network would have answered: it only logs, makes
no network call, does not enter `report`, and leaves the maintainer (so the budget) and the
number of reports in flight unchanged; afterwards it is gone for good. -/
theorem unknown_dial_type_skips_probe_and_report (parseBytes : String → Except String JValue)
    (s : System) (i : Nat) (c : Candidate) (err : GoError)
    (hi : s.goroutines[i]? = some (.validate c))
    (hhttp : c.dt ≠ "http") (hsocks : c.dt ≠ "socks5") :
    ∃ s1, step parseBytes s (.run i err) = some s1 ∧
      s1.goroutines = s.goroutines.set i (.exit .unknownDial) ∧
      s1.trace = s.trace ++ [.log "unknown dial type, return"] ∧
      s1.trace.filter Event.isNetwork = s.trace.filter Event.isNetwork ∧
      s1.m = s.m ∧
      inFlight s1 = inFlight s ∧
      s1.goroutines.countP Pc.enteredReport = s.goroutines.countP Pc.enteredReport ∧
      (∀ err2, step parseBytes s1 (.run i err2) = some s1) ∧
      ∀ acts s2, runActions parseBytes s1 acts = some s2 →
        s2.goroutines[i]? = some (.exit .unknownDial) := by
  have hv : validate s.m c.addr c.dt c.pvd c.id err =
      ([.log "unknown dial type, return"], .exit .unknownDial) := by
    simp [validate, hhttp, hsocks]
  have hstep := seg_validate parseBytes s i c err hi
  rw [hv] at hstep
  have hlt := lt_length_of_getElem? _ _ _ hi
  have hH := countP_set_int Pc.holding s.goroutines i _ (.exit .unknownDial) hi
  have hE := countP_set_int Pc.enteredReport s.goroutines i _ (.exit .unknownDial) hi
  simp only [Pc.holding, Pc.enteredReport] at hH hE
  have hi1 : (s.goroutines.set i (.exit .unknownDial))[i]? = some (.exit .unknownDial) :=
    List.getElem?_set_self hlt
  refine ⟨_, hstep, rfl, rfl, by simp [Event.isNetwork], rfl, ?_, ?_, ?_, ?_⟩
  · unfold inFlight
    simp at hH
    exact_mod_cast hH
  · simp at hE
    exact_mod_cast hE
  · intro err2
    exact step_exit_noop parseBytes _ i _ err2 hi1
  · intro acts s2 hrun
    exact runActions_exit_stable parseBytes acts _ s2 i _ hi1 hrun

/-- C4 at a candidate of dial type `ftp`. -/
theorem unknown_dial_type_skips_probe_and_report_witness :
    ∃ s1, step exParse exUnknownDial (.run 0 (some "unused")) = some s1 ∧
      s1.goroutines = exUnknownDial.goroutines.set 0 (.exit .unknownDial) ∧
      s1.trace = exUnknownDial.trace ++ [.log "unknown dial type, return"] ∧
      s1.trace.filter Event.isNetwork = exUnknownDial.trace.filter Event.isNetwork ∧
      s1.m = exUnknownDial.m ∧
      inFlight s1 = inFlight exUnknownDial ∧
      s1.goroutines.countP Pc.enteredReport =
        exUnknownDial.goroutines.countP Pc.enteredReport ∧
      (∀ err2, step exParse s1 (.run 0 err2) = some s1) ∧
      ∀ acts s2, runActions exParse s1 acts = some s2 →
        s2.goroutines[0]? = some (.exit .unknownDial) :=
  unknown_dial_type_skips_probe_and_report exParse exUnknownDial 0
    ⟨"2.2.2.2:1080", "ftp", "q", 8⟩ (some "unused") rfl (by decide) (by decide)

/-! ## The report requests of one goroutine, along any schedule -/

/-- C7: in every state reached from the state `main` leaves behind: (1) a goroutine that has
acquired a unit sends its one report request, whatever the outcome of the call, and still holds
the unit; (2) its deferred function then releases exactly one unit without panic, whatever that
outcome was, the goroutine returns, and from then on its steps change nothing, so there is no
second request and no second release; (3) a whole `report` that finds a unit free, run on its
own, leaves the maintainer, and with it the number of units held, exactly as before the
call. -/
theorem report_releases_its_unit_exactly_once (parseBytes : String → Except String JValue)
    (m : maintainer) (C : Int) (hm : m.maxConcurrency = NewWeighted C)
    (acts : List Action) (s : System)
    (hreach : runActions parseBytes (boot m) acts = some s) :
    (∀ (i : Nat) (pvd : String) (id : Int) (err : GoError),
      s.goroutines[i]? = some (.send pvd id) →
      ∃ s1, step parseBytes s (.run i err) = some s1 ∧
        s1.m = s.m ∧
        s1.goroutines = s.goroutines.set i .release ∧
        inFlight s1 = inFlight s ∧
        s1.trace.filter Event.isNetwork =
          s.trace.filter Event.isNetwork ++ [.reportGet (reportUri s.m pvd id)]) ∧
    (∀ (i : Nat) (err : GoError), s.goroutines[i]? = some .release →
      ∃ s1, step parseBytes s (.run i err) = some s1 ∧
        s1.m.maxConcurrency =
          { s.m.maxConcurrency with cur := s.m.maxConcurrency.cur - 1 } ∧
        0 ≤ s1.m.maxConcurrency.cur ∧
        inFlight s1 + 1 = inFlight s ∧
        s1.goroutines = s.goroutines.set i (.exit .reported) ∧
        s1.trace = s.trace ∧
        (∀ err2, step parseBytes s1 (.run i err2) = some s1) ∧
        ∀ acts2 s2, runActions parseBytes s1 acts2 = some s2 →
          s2.goroutines[i]? = some (.exit .reported)) ∧
    (∀ (i : Nat) (pvd : String) (id : Int) (e0 err e2 : GoError),
      s.goroutines[i]? = some (.acquire pvd id) →
      1 ≤ s.m.maxConcurrency.size - s.m.maxConcurrency.cur →
      ∃ s3, runActions parseBytes s [.run i e0, .run i err, .run i e2] = some s3 ∧
        s3.m = s.m ∧
        s3.goroutines = s.goroutines.set i (.exit .reported) ∧
        s3.trace.filter Event.isNetwork =
          s.trace.filter Event.isNetwork ++ [.reportGet (reportUri s.m pvd id)]) := by
  obtain ⟨s0, hs0, hinv, _⟩ := runActions_inv parseBytes acts (boot m) (inv_boot m C hm)
  rw [hreach] at hs0
  simp only [Option.some.injEq] at hs0
  subst hs0
  obtain ⟨hw, hcur, _, _⟩ := hinv
  refine ⟨?_, ?_, ?_⟩
  · intro i pvd id err hi
    have hH := countP_set_int Pc.holding s.goroutines i _ .release hi
    simp [Pc.holding] at hH
    refine ⟨_, seg_send parseBytes s i pvd id err hi, rfl, rfl, ?_, ?_⟩
    · unfold inFlight
      exact_mod_cast hH
    · simp only [List.filter_append, (reportDoTimeout_cases s.m pvd id err).2.2]
  · intro i err hi
    have hlt := lt_length_of_getElem? _ _ _ hi
    have h1 := one_le_countP_of_getElem? Pc.holding s.goroutines i .release hi rfl
    have hheld : 1 ≤ s.m.maxConcurrency.cur := by omega
    have hH := countP_set_int Pc.holding s.goroutines i _ (.exit .reported) hi
    simp [Pc.holding] at hH
    have hi1 : (s.goroutines.set i (.exit .reported))[i]? = some (.exit .reported) :=
      List.getElem?_set_self hlt
    refine ⟨_, seg_release parseBytes s i err hi hheld, rfl, ?_, ?_, rfl, rfl, ?_, ?_⟩
    · show 0 ≤ s.m.maxConcurrency.cur - 1
      omega
    · unfold inFlight
      show (s.goroutines.set i (.exit .reported)).countP Pc.holding + 1 =
        s.goroutines.countP Pc.holding
      omega
    · intro err2
      exact step_exit_noop parseBytes _ i _ err2 hi1
    · intro acts2 s2 hrun
      exact runActions_exit_stable parseBytes acts2 _ s2 i _ hi1 hrun
  · intro i pvd id e0 err e2 hi hfree
    have hcur0 : 0 ≤ s.m.maxConcurrency.cur := by omega
    refine ⟨_, report_alone parseBytes s i pvd id e0 err e2 hi hfree hw hcur0, rfl, rfl, ?_⟩
    simp only [List.filter_append, (reportDoTimeout_cases s.m pvd id err).2.2]

/-- C7 in scenario 1, at the state where the third goroutine holds a unit: its request fails,
and the unit is still released. -/
theorem report_releases_its_unit_exactly_once_witness :
    ∃ s1, step scenario1Parse scenario1Sending (.run 2 (some "connection reset")) = some s1 ∧
      s1.m = scenario1Sending.m ∧
      s1.goroutines = scenario1Sending.goroutines.set 2 .release ∧
      inFlight s1 = inFlight scenario1Sending ∧
      s1.trace.filter Event.isNetwork =
        scenario1Sending.trace.filter Event.isNetwork ++
          [.reportGet (reportUri scenario1Sending.m "gamma" 3)] :=
  (report_releases_its_unit_exactly_once scenario1Parse exMaintainer 10 rfl
    (scenario1Schedule.take 5) scenario1Sending rfl).1 2 "gamma" 3
    (some "connection reset") (by decide)

/-! ## C8 on a concrete execution -/

theorem execFrom_step (parseBytes : String → Except String JValue) (s0 : System)
    (α : Nat → Action) (h0 : Inv s0) (n : Nat) :
    Inv (execFrom parseBytes s0 α n) ∧
    step parseBytes (execFrom parseBytes s0 α n) (α n) =
      some (execFrom parseBytes s0 α (n + 1)) := by
  induction n with
  | zero =>
    obtain ⟨s1, hs1⟩ := step_some parseBytes s0 (α 0) h0
    exact ⟨h0, by simp [execFrom, hs1]⟩
  | succ n ih =>
    have hinv : Inv (execFrom parseBytes s0 α (n + 1)) :=
      (step_inv parseBytes _ _ _ ih.1 ih.2).1
    obtain ⟨s1, hs1⟩ := step_some parseBytes _ (α (n + 1)) hinv
    refine ⟨hinv, ?_⟩
    rw [hs1]
    show some s1 = some ((step parseBytes (execFrom parseBytes s0 α (n + 1)) (α (n + 1))).getD
      (execFrom parseBytes s0 α (n + 1)))
    rw [hs1]
    rfl

theorem runs_eq (a : Action) (i : Nat) (h : a.runs i = true) : ∃ err, a = .run i err := by
  cases a with
  | run j err =>
    simp only [Action.runs, beq_iff_eq] at h
    subst h
    exact ⟨err, rfl⟩
  | fetch reply => simp [Action.runs] at h
  | reap => simp [Action.runs] at h

theorem contendExec_final (d : Nat) : contendExec (11 + d) = contendExec 11 := by
  induction d with
  | zero => rfl
  | succ d ih =>
    have hact : contendActions (11 + d) = .reap :=
      List.getD_eq_default _ _ (by simp [contendSchedule])
    have hfix : step contendParse (contendExec 11) .reap = some (contendExec 11) := by decide
    show (step contendParse (contendExec (11 + d)) (contendActions (11 + d))).getD
      (contendExec (11 + d)) = contendExec 11
    rw [ih, hact, hfix]
    rfl

theorem contend_all (P : System → Prop) (h : ∀ n, n < 12 → P (contendExec n)) (n : Nat) :
    P (contendExec n) := by
  by_cases hn : n < 12
  · exact h n hn
  · obtain ⟨d, rfl⟩ := Nat.exists_eq_add_of_le (show 11 ≤ n by omega)
    rw [contendExec_final]
    exact h 11 (by decide)

theorem contend_length (n : Nat) : (contendExec n).goroutines.length ≤ 2 :=
  contend_all (fun s => s.goroutines.length ≤ 2) (by decide) n

theorem contend_load (n : Nat) : (contendExec n).goroutines.countP Pc.enteredReport ≤ 2 :=
  contend_all (fun s => s.goroutines.countP Pc.enteredReport ≤ 2) (by decide) n

theorem contend_poll_bound :
    ∀ n, n < 12 → ∀ i, i < 2 → isAcquire (contendExec n).goroutines[i]? = true →
      n ≤ (if i = 0 then 3 else 8) ∧ (contendActions (if i = 0 then 3 else 8)).runs i = true := by
  decide

set_option maxRecDepth 100000 in
/-- C8 on the execution of two reports competing for one unit: the second goroutine, found in
the polling loop after both probes have failed, acquires the unit and completes; and the
complete run of scenario 3 (twenty failures, `max_concurrency = 5`) ends with all twenty
reports sent and completed and the budget free again. -/
theorem waiting_report_eventually_completes_witness :
    (∃ k, 3 ≤ k ∧ (contendExec k).goroutines[1]? = some (.send "beta" 2) ∧
      ∃ k2, k ≤ k2 ∧ (contendExec k2).goroutines[1]? = some (.exit .reported)) ∧
    (runActions scenario3Parse (boot scenario3Maintainer) scenario3Schedule).map
        (fun s => (s.goroutines.countP Pc.completed, s.trace.countP Event.isReport,
          s.m.maxConcurrency)) = some (20, 20, NewWeighted 5) := by
  refine ⟨waiting_report_eventually_completes contendParse contendMaintainer 1 (by decide) rfl
    contendExec contendActions rfl
    (fun n => (execFrom_step contendParse (boot contendMaintainer) contendActions
      (inv_boot contendMaintainer 1 rfl) n).2)
    2 contend_load ?_ ?_ 3 1 "beta" 2 (by decide), by decide⟩
  · intro n i pc hi _
    have hlt := lt_length_of_getElem? _ _ _ hi
    have hlen := contend_length n
    refine ⟨11 + n, by omega, ?_⟩
    rw [contendExec_final]
    have hi2 : i = 0 ∨ i = 1 := by omega
    rcases hi2 with rfl | rfl <;> decide
  · intro n i pvd id hi
    have hlt := lt_length_of_getElem? _ _ _ hi
    have hlen := contend_length n
    have hacq : isAcquire (contendExec n).goroutines[i]? = true := by
      rw [hi]
      rfl
    have hn : n < 12 := by
      by_contra hge
      obtain ⟨d, rfl⟩ := Nat.exists_eq_add_of_le (show 11 ≤ n by omega)
      rw [contendExec_final] at hacq
      have := (contend_poll_bound 11 (by decide) i (by omega) hacq).1
      split at this <;> omega
    obtain ⟨hk, hruns⟩ := contend_poll_bound n hn i (by omega) hacq
    obtain ⟨err, herr⟩ := runs_eq _ _ hruns
    exact ⟨_, err, hk, herr⟩

end Pxier
